import Mathlib

/-!
Shallow embedding of the httpget HTTP/1.1 client (src/http.c, src/url.c,
src/base64.c, src/util.c) and proofs about it.

Modelling conventions:
* C strings and byte buffers are List Char (a char is one byte; where the C
  code does byte arithmetic we reduce modulo 256).
* size_t is Nat; SIZE_MAX is 2^64 - 1; int and long long are Int with the
  64-bit bounds made explicit where they matter.
* The network is modelled inside http_connection: stream holds the bytes not
  yet received from the socket, sent holds the bytes transmitted so far.
  recv(2) deterministically delivers min(requested, available) bytes and
  reports EOF on an empty stream; send(2) always succeeds.  I/O-error states
  are modelled by quantifying over connections with the failed flag set.
* The global last_error slot of http.c is the lastError field of
  http_connection; messages are represented by tags (http_err), one per
  set_last_error call site that the embedded code can reach.
* Loops are embedded as fuelled structural recursion; the fuel provided by
  each wrapper is large enough that the fuel-out branch is unreachable
  (each iteration of the C loop consumes at least one byte of input, or one
  element of a list, as noted at the definitions).
-/

set_option maxRecDepth 8000

/-- C isspace on the ASCII charset (space, tab, newline, vtab, formfeed, cr). -/
def c_isspace (c : Char) : Bool :=
  c = ' ' || c = '\t' || c = '\n' || c = '\x0b' || c = '\x0c' || c = '\r'

/-- C tolower on the ASCII charset. -/
def c_tolower (c : Char) : Char :=
  if 'A' ≤ c ∧ c ≤ 'Z' then Char.ofNat (c.toNat + 32) else c

/-- strcasecmp(a, b) == 0: case-insensitive string equality. -/
def strcaseEq (a b : List Char) : Bool :=
  a.map c_tolower == b.map c_tolower

/-- Value of a digit character in the given base, as strtoll accepts it. -/
def digitVal (base : Nat) (c : Char) : Option Nat :=
  let v : Option Nat :=
    if '0' ≤ c ∧ c ≤ '9' then some (c.toNat - 48)
    else if 'a' ≤ c ∧ c ≤ 'z' then some (c.toNat - 97 + 10)
    else if 'A' ≤ c ∧ c ≤ 'Z' then some (c.toNat - 65 + 10)
    else none
  match v with
  | some d => if d < base then some d else none
  | none => none

/-- Consume a maximal run of base-`base` digits, returning the accumulated
value, the number of digits consumed and the rest of the string. -/
def takeDigits (base : Nat) : List Char → Nat → Nat → Nat × Nat × List Char
  | [], acc, cnt => (acc, cnt, [])
  | c :: t, acc, cnt =>
    match digitVal base c with
    | some d => takeDigits base t (acc * base + d) (cnt + 1)
    | none => (acc, cnt, c :: t)

/-- Embedding of C strtoll's scan: skip leading whitespace, optional sign,
for base 16 an optional 0x prefix (only when followed by a hex digit), then a
maximal digit run.  Returns the (unclamped) value and the unconsumed suffix,
or none when no digits were consumed (end == str). -/
def strtollScan (base : Nat) (s : List Char) : Option (Int × List Char) :=
  let s1 := s.dropWhile c_isspace
  let (sgn, s2) : Int × List Char :=
    match s1 with
    | '-' :: t => (-1, t)
    | '+' :: t => (1, t)
    | _ => (1, s1)
  let s3 :=
    if base = 16 then
      match s2 with
      | '0' :: x :: t =>
        if ((x == 'x' || x == 'X') &&
            (match t with
             | h :: _ => (digitVal 16 h).isSome
             | [] => false)) then t else s2
      | _ => s2
    else s2
  let (acc, cnt, rest) := takeDigits base s3 0 0
  if cnt = 0 then none else some (sgn * acc, rest)

/-- LLONG_MAX on the target platform. -/
def LLONG_MAX : Int := 2 ^ 63 - 1

/-- LLONG_MIN on the target platform. -/
def LLONG_MIN : Int := -(2 ^ 63)

/-- SIZE_MAX on the target platform, 2^64 - 1. -/
def SIZE_MAX : Nat := 18446744073709551615

/-- Embedding of strict_strtoll (src/util.c): the whole string must be
consumed, at least one digit must be present, and the value must be
representable in long long (strtoll reporting ERANGE makes it fail). -/
def strict_strtoll (s : List Char) (base : Nat) : Option Int :=
  match strtollScan base s with
  | none => none
  | some (v, rest) =>
    if v < LLONG_MIN ∨ LLONG_MAX < v then none
    else if rest ≠ [] then none
    else some v

/-- Embedding of parse_size (src/http.c): a strict long long that is
non-negative and fits in size_t. -/
def parse_size (s : List Char) (base : Nat) : Option Nat :=
  match strict_strtoll s base with
  | none => none
  | some x =>
    if x < 0 ∨ (SIZE_MAX : Int) < x then none else some x.toNat

/-- Tags for the set_last_error call sites reachable from the embedded code
(the global last_error buffer of src/http.c, one tag per message). -/
inductive http_err where
  | contentLengthParse
  | contentRangeParse
  | locationParse
  | rangeMismatch
  | chunkSizeParse
  | chunkShort
  | chunkCrlf
  | bodyShort
  | headerLineTooLong
deriving DecidableEq, Repr

/-- Capacity of the shared connection buffer (BUF_SIZE in src/http.c). -/
def BUF_SIZE : Nat := 4096

/-- Embedding of struct http_connection plus its environment: bufData is the
content of the used region buf[bufBegin..bufEnd) of the shared buffer, stream
the bytes the peer will still deliver, sent the bytes transmitted so far, and
lastError the global last_error slot. -/
structure http_connection where
  failed : Bool
  stream : List Char
  sent : List Char
  bufBegin : Nat
  bufEnd : Nat
  bufData : List Char
  lastError : Option http_err
deriving DecidableEq, Repr

/-- Embedding of do_send (src/http.c): a no-op on a failed connection,
otherwise transmits all bytes (the modelled network never fails a send). -/
def do_send (c : http_connection) (data : List Char) : http_connection :=
  if c.failed then c else { c with sent := c.sent ++ data }

/-- Embedding of do_recv (src/http.c): a no-op returning 0 on a failed
connection; otherwise delivers min(len, available) bytes, 0 on EOF.  The
exact flag does not change the result under the deterministic network model
(the exact loop also stops only at len bytes or EOF). -/
def do_recv (c : http_connection) (len : Nat) (exact : Bool) :
    Nat × List Char × http_connection :=
  if c.failed then (0, [], c)
  else
    let bytes := c.stream.take len
    (bytes.length, bytes, { c with stream := c.stream.drop len })

/-- Embedding of copy_to_buffer (src/http.c): append at most
BUF_SIZE - bufEnd bytes of data to the buffer. -/
def copy_to_buffer (c : http_connection) (data : List Char) :
    Nat × http_connection :=
  let n := min (BUF_SIZE - c.bufEnd) data.length
  if n = 0 then (0, c)
  else (n, { c with bufEnd := c.bufEnd + n, bufData := c.bufData ++ data.take n })

/-- Embedding of copy_from_buffer (src/http.c): take at most len bytes from
the front of the used region. -/
def copy_from_buffer (c : http_connection) (len : Nat) :
    Nat × List Char × http_connection :=
  let n := min c.bufData.length len
  if n = 0 then (0, [], c)
  else (n, c.bufData.take n,
        { c with bufBegin := c.bufBegin + n, bufData := c.bufData.drop n })

/-- Embedding of flush_buffer (src/http.c): send the used region, then reset
both buffer indices to 0. -/
def flush_buffer (c : http_connection) : http_connection :=
  let c1 := do_send c c.bufData
  { c1 with bufBegin := 0, bufEnd := 0, bufData := [] }

/-- Embedding of refill_buffer (src/http.c): reset an empty buffer, then
append up to BUF_SIZE - bufEnd received bytes. -/
def refill_buffer (c : http_connection) : Nat × http_connection :=
  let c1 := if c.bufData.length = 0 then { c with bufBegin := 0, bufEnd := 0 } else c
  let (n, bytes, c2) := do_recv c1 (BUF_SIZE - c1.bufEnd) false
  (n, { c2 with bufEnd := c2.bufEnd + n, bufData := c2.bufData ++ bytes })

/-- Loop of buffered_send (src/http.c), fuelled.  Each iteration either
copies at least one byte of data into the buffer or flushes a full buffer,
and a flush is always followed by a copying iteration, so fuel
2 * data.length + 2 is never exhausted. -/
def buffered_send_go : Nat → http_connection → List Char → http_connection
  | 0, c, _ => c
  | fuel + 1, c, data =>
    if c.failed ∨ data = [] then c
    else
      let r := copy_to_buffer c data
      if r.1 = 0 then buffered_send_go fuel (flush_buffer c) data
      else buffered_send_go fuel r.2 (data.drop r.1)

/-- Embedding of buffered_send (src/http.c). -/
def buffered_send (c : http_connection) (data : List Char) : http_connection :=
  buffered_send_go (data.length * 2 + 2) c data

/-- Embedding of buffered_recv (src/http.c): first drain the buffer if it is
not empty, then, if more bytes are still wanted, receive the remainder with
exact = true. -/
def buffered_recv (c : http_connection) (len : Nat) :
    Nat × List Char × http_connection :=
  if c.bufData.length ≠ 0 then
    let cf := copy_from_buffer c len
    if 0 < len - cf.1 then
      let dr := do_recv cf.2.2 (len - cf.1) true
      (cf.1 + dr.1, cf.2.1 ++ dr.2.1, dr.2.2)
    else cf
  else
    if 0 < len - 0 then
      let dr := do_recv c (len - 0) true
      (0 + dr.1, [] ++ dr.2.1, dr.2.2)
    else (0, [], c)

/-- Loop of recv_line (src/http.c), fuelled.  written accumulates every byte
the C code stores into the caller's destination buffer (the copy target of
copy_from_buffer); lineLen is the C line_len counter.  Each recursive
iteration consumes at least one byte of stream + bufData, so the wrapper's
fuel is never exhausted.  The assert(n > 0) of the C code is modelled as
compiled out (NDEBUG). -/
def recv_line_go :
    Nat → http_connection → Nat → Nat → List Char →
    Nat × List Char × http_connection
  | 0, c, _, lineLen, written => (lineLen, written, c)
  | fuel + 1, c, bufSize, lineLen, written =>
    if bufSize ≤ lineLen then (lineLen, written, c)
    else
      let (got, c1) :=
        if c.bufData.length = 0 then refill_buffer c else (1, c)
      if got = 0 then (lineLen, written, c1)
      else
        let pFound := c1.bufData.findIdx? (fun x => x == '\n')
        let n := match pFound with
          | some p => p
          | none => bufSize - lineLen
        let (n2, bytes, c2) := copy_from_buffer c1 n
        match pFound with
        | some _ =>
          (lineLen + n2, written ++ bytes,
           { c2 with bufBegin := c2.bufBegin + 1, bufData := c2.bufData.drop 1 })
        | none => recv_line_go fuel c2 bufSize (lineLen + n2) (written ++ bytes)

/-- Embedding of recv_line (src/http.c).  Returns the line length (after
stripping a trailing carriage return), the bytes written into the caller's
buffer, and the connection.  The C code reads buf[line_len - 1] for the
carriage-return check; since every written byte is appended to written in
order, that byte is the last element of written. -/
def recv_line (c : http_connection) (bufSize : Nat) :
    Nat × List Char × http_connection :=
  let (ll, w, c1) :=
    recv_line_go (c.stream.length + c.bufData.length + 1) c bufSize 0 []
  let ll2 := if 0 < ll ∧ w.getLastD ' ' = '\r' then ll - 1 else ll
  (ll2, w, c1)

/-- Scheme characters accepted by parse_scheme (src/url.c). -/
def isSchemeChar (c : Char) : Bool :=
  c.isAlphanum || c == '+' || c == '-' || c == '.'

/-- Host characters accepted by parse_host (src/url.c). -/
def isHostChar (c : Char) : Bool :=
  c.isAlphanum || c == '-' || c == '.'

/-- Embedding of struct url_struct (src/url.h): scheme and host are NULL
(none) when absent, port is -1 when absent. -/
structure url_struct where
  scheme : Option (List Char)
  host : Option (List Char)
  port : Int
  path : List Char
  name : List Char
deriving DecidableEq, Repr

/-- Embedding of parse_scheme (src/url.c): always succeeds; a scheme is
recognised only when a non-empty run of scheme characters is followed by
"://", and is stored lowercased. -/
def parse_scheme (s : List Char) : List Char × Option (List Char) :=
  let pre := s.takeWhile isSchemeChar
  let rest := s.drop pre.length
  if pre.length = 0 ∨ rest.take 3 ≠ "://".toList then (s, none)
  else (rest.drop 3, some (pre.map c_tolower))

/-- Embedding of parse_host (src/url.c): an empty host is accepted only when
no scheme was given. -/
def parse_host (s : List Char) (scheme : Option (List Char)) :
    Option (List Char × Option (List Char)) :=
  let pre := s.takeWhile isHostChar
  if pre.length = 0 then
    if scheme.isSome then none else some (s, none)
  else some (s.drop pre.length, some pre)

/-- Embedding of parse_port (src/url.c): strtol semantics for the digits
(whitespace and sign skipped), 0..USHRT_MAX, only allowed after a host. -/
def parse_port (s : List Char) (host : Option (List Char)) :
    Option (List Char × Int) :=
  match s with
  | ':' :: t =>
    if host = none then none
    else
      match strtollScan 10 t with
      | none => none
      | some (v, rest) => if v < 0 ∨ 65535 < v then none else some (rest, v)
  | _ => some (s, -1)

/-- Name component: the suffix of path after its last slash (strrchr), empty
when path has no slash (src/url.c parse_path). -/
def url_name_of (p : List Char) : List Char :=
  if p.contains '/' then (p.reverse.takeWhile (fun c => c != '/')).reverse
  else []

/-- Embedding of parse_path (src/url.c): an empty remainder is only legal
with a host, a missing or lone-slash path becomes "/", and any other path
must start with a slash. -/
def parse_path (s : List Char) (host : Option (List Char)) :
    Option (List Char × List Char) :=
  if s = [] ∧ host = none then none
  else if s = [] ∨ s = ['/'] then
    some ("/".toList, url_name_of "/".toList)
  else if s.head? ≠ some '/' then none
  else some (s, url_name_of s)

/-- Embedding of url_parse (src/url.c). -/
def url_parse (s : List Char) : Option url_struct :=
  let (s1, scheme) := parse_scheme s
  match parse_host s1 scheme with
  | none => none
  | some (s2, host) =>
    match parse_port s2 host with
    | none => none
    | some (s3, port) =>
      match parse_path s3 host with
      | none => none
      | some (path, nm) => some ⟨scheme, host, port, path, nm⟩

/-- Embedding of url_alloc (src/url.c): parse, NULL (none) on failure. -/
def url_alloc (s : List Char) : Option url_struct := url_parse s

/-- Embedding of struct http_response (src/http.h). -/
structure http_response where
  conn : http_connection
  version : Int
  status : Int
  reason : List Char
  ranged : Bool
  chunked : Bool
  body_size : Nat
  body_read : Nat
  range_first : Nat
  range_last : Nat
  range_total : Nat
  chunk_size : Nat
  location : Option url_struct
deriving DecidableEq, Repr

/-- Record an error in the global last_error slot (set_last_error). -/
def set_err (resp : http_response) (e : http_err) : http_response :=
  { resp with conn := { resp.conn with lastError := some e } }

/-- Embedding of HTTP_STATUS_REDIRECT (src/http.h): status / 100 == 3 with
C integer division (truncation toward zero). -/
def HTTP_STATUS_REDIRECT (s : Int) : Bool := s.tdiv 100 == 3

/-- Embedding of handle_content_length_header (src/http.c): ignored when the
response is already known to be chunked, otherwise parses a size. -/
def handle_content_length_header (s : List Char) (resp : http_response) :
    Bool × http_response :=
  if resp.chunked then (true, resp)
  else
    match parse_size s 10 with
    | some n => (true, { resp with body_size := n })
    | none => (false, set_err resp .contentLengthParse)

/-- Embedding of handle_transfer_encoding_header (src/http.c): when the value
ends with the 7 characters "chunked" case-insensitively, mark the response
chunked and zero any recorded content length.  (In the C code chunked_strlen
is sizeof(const char *) - 1 = 7 on the 64-bit target.) -/
def handle_transfer_encoding_header (s : List Char) (resp : http_response) :
    Bool × http_response :=
  if 7 ≤ s.length ∧ strcaseEq (s.drop (s.length - 7)) ("chunked".toList) then
    (true, { resp with chunked := true, body_size := 0 })
  else (true, resp)

/-- Embedding of handle_content_range_header (src/http.c): value must be
"bytes <first>-<last>/<total>" with first ≤ last < total; the response
fields are written as the pieces parse, exactly as the C code mutates resp
before its sanity check. -/
def handle_content_range_header (s : List Char) (resp : http_response) :
    Bool × http_response :=
  if strcaseEq (s.take 5) ("bytes".toList) = false then
    (false, set_err resp .contentRangeParse)
  else
    let s5 := s.drop 5
    if (match s5.head? with
        | some ch => c_isspace ch
        | none => false) = false then
      (false, set_err resp .contentRangeParse)
    else
      let s6 := s5.dropWhile c_isspace
      match s6.findIdx? (fun c => c == '-') with
      | none => (false, set_err resp .contentRangeParse)
      | some di =>
        match parse_size (s6.take di) 10 with
        | none => (false, set_err resp .contentRangeParse)
        | some f =>
          let resp1 := { resp with range_first := f }
          let s7 := s6.drop (di + 1)
          match s7.findIdx? (fun c => c == '/') with
          | none => (false, set_err resp1 .contentRangeParse)
          | some si =>
            match parse_size (s7.take si) 10 with
            | none => (false, set_err resp1 .contentRangeParse)
            | some l =>
              let resp2 := { resp1 with range_last := l }
              match parse_size (s7.drop (si + 1)) 10 with
              | none => (false, set_err resp2 .contentRangeParse)
              | some t =>
                let resp3 := { resp2 with range_total := t }
                if resp3.range_first > resp3.range_last ∨
                   resp3.range_last ≥ resp3.range_total then
                  (false, set_err resp3 .contentRangeParse)
                else (true, { resp3 with ranged := true })

/-- Embedding of handle_location_header (src/http.c). -/
def handle_location_header (s : List Char) (resp : http_response) :
    Bool × http_response :=
  match url_alloc s with
  | some u => (true, { resp with location := some u })
  | none => (false, set_err resp .locationParse)

/-- Embedding of the header_handlers table (src/http.c). -/
def header_handlers :
    List (List Char × (List Char → http_response → Bool × http_response)) :=
  [("Content-Length".toList, handle_content_length_header),
   ("Content-Range".toList, handle_content_range_header),
   ("Transfer-Encoding".toList, handle_transfer_encoding_header),
   ("Location".toList, handle_location_header)]

/-- Embedding of handle_header (src/http.c): first handler whose field name
matches case-insensitively; unrecognised fields are accepted silently. -/
def handle_header (field value : List Char) (resp : http_response) :
    Bool × http_response :=
  match header_handlers.find? (fun h => strcaseEq h.1 field) with
  | some h => h.2 value resp
  | none => (true, resp)

/-- Embedding of load_chunk (src/http.c): read the chunk-size line into a
16-byte buffer and parse it as hex.  When the line fills the buffer the
parse is skipped (short-circuit ||); parse_size only stores chunk_size on
success. -/
def load_chunk (resp : http_response) : Bool × http_response :=
  let (n, w, c1) := recv_line resp.conn 16
  if 16 ≤ n then
    (false,
     if c1.failed then { resp with conn := c1 }
     else { resp with conn := { c1 with lastError := some .chunkSizeParse } })
  else
    match parse_size (w.take n) 16 with
    | some sz => (true, { resp with conn := c1, chunk_size := sz })
    | none =>
      (false,
       if c1.failed then { resp with conn := c1 }
       else { resp with conn := { c1 with lastError := some .chunkSizeParse } })

/-- Embedding of chunked_read (src/http.c): 0 once the zero-size chunk was
seen; reads are clamped to the current chunk; a short read is an error; on
finishing a chunk the CRLF is verified and the next chunk-size line is
loaded.  Returns (return value, bytes written to the caller, response). -/
def chunked_read (resp : http_response) (len : Nat) :
    Int × List Char × http_response :=
  if resp.chunk_size = 0 then (0, [], resp)
  else
    let len1 := min len resp.chunk_size
    let r := buffered_recv resp.conn len1
    let n := r.1
    let bytes := r.2.1
    let c1 := r.2.2
    if n < len1 then
      (-1, bytes,
       if c1.failed then { resp with conn := c1 }
       else { resp with conn := { c1 with lastError := some .chunkShort } })
    else
      let resp1 :=
        { resp with
          conn := c1
          body_read := resp.body_read + n
          chunk_size := resp.chunk_size - n }
      if resp1.chunk_size = 0 then
        let r2 := buffered_recv resp1.conn 2
        let m := r2.1
        let crlf := r2.2.1
        let c2 := r2.2.2
        if m ≠ 2 ∨ crlf ≠ ['\r', '\n'] then
          (-1, bytes,
           if c2.failed then { resp1 with conn := c2 }
           else { resp1 with conn := { c2 with lastError := some .chunkCrlf } })
        else
          let r3 := load_chunk { resp1 with conn := c2 }
          if r3.1 then ((n : Int), bytes, r3.2) else (-1, bytes, r3.2)
      else ((n : Int), bytes, resp1)

/-- Embedding of simple_read (src/http.c): reads are clamped to the
undelivered remainder of a known content length; EOF before the declared
total is a protocol error. -/
def simple_read (resp : http_response) (len : Nat) :
    Int × List Char × http_response :=
  let len1 :=
    if 0 < resp.body_size then min len (resp.body_size - resp.body_read)
    else len
  let (n, bytes, c1) := buffered_recv resp.conn len1
  let resp1 := { resp with conn := c1, body_read := resp.body_read + n }
  if 0 < n then ((n : Int), bytes, resp1)
  else if resp1.conn.failed then (-1, bytes, resp1)
  else if resp1.body_read < resp1.body_size then
    (-1, bytes, set_err resp1 .bodyShort)
  else (0, bytes, resp1)

/-- Embedding of http_response_read (src/http.c). -/
def http_response_read (resp : http_response) (len : Nat) :
    Int × List Char × http_response :=
  if resp.chunked then chunked_read resp len else simple_read resp len

/-- Embedding of struct http_request_info (the fields used by src/http.c:
main.c also sets creds and trusted_location). -/
structure http_request_info where
  host : List Char
  port : Int
  command : List Char
  path : List Char
  creds : Option (List Char)
  trusted_location : Bool
  want_range : Bool
  range_first : Nat
  range_last : Nat
  max_redirections : Int
deriving DecidableEq, Repr

/-- Embedding of check_range (src/http.c): the expected range defaults to
(0, range_total - 1) with size_t wrap-around when range_total is 0, is
overridden by the request's range_first when a range was requested, and by
range_last too unless it is the open-ended sentinel SIZE_MAX. -/
def check_range (info : http_request_info) (resp : http_response) : Bool :=
  let lastDefault := if resp.range_total = 0 then SIZE_MAX else resp.range_total - 1
  let first := if info.want_range then info.range_first else 0
  let last :=
    if info.want_range ∧ info.range_last ≠ SIZE_MAX then info.range_last
    else lastDefault
  first == resp.range_first && last == resp.range_last

/-- Tail of __http_simple_request (src/http.c) after recv_response has
succeeded: validate requested-vs-received ranges, then pre-load the first
chunk of a chunked body.  (The C code sets last_error inside check_range on
mismatch; destroy_response on the failure paths releases resources, which
the model does not track.) -/
def finish_attempt (info : http_request_info) (resp : http_response) :
    Bool × http_response :=
  if resp.ranged ∧ ¬check_range info resp then (false, set_err resp .rangeMismatch)
  else if resp.chunked then
    let (ok, resp1) := load_chunk resp
    (ok, resp1)
  else (true, resp)

/-- Embedding of the base64 alphabet (src/base64.c). -/
def BASE64_TABLE : List Char :=
  "ABCDEFGHIJKLMNOPQRSTUVWXYZabcdefghijklmnopqrstuvwxyz0123456789+/".toList

/-- Table lookup of encode_append (src/base64.c); indices are always < 64. -/
def b64ch (n : Nat) : Char := BASE64_TABLE.getD n 'A'

/-- Embedding of base64_encode (src/base64.c), producing the encoded
characters.  Bytes are char values reduced modulo 256; the C shifts and
masks a >> 2, (a & 3) << 4, b >> 4, (b & 15) << 2, c >> 6, c & 63 are the
corresponding divisions and remainders. -/
def base64_encode : List Char → List Char
  | [] => []
  | [a] =>
    let av := a.toNat % 256
    [b64ch (av / 4), b64ch (av % 4 * 16), '=', '=']
  | [a, b] =>
    let av := a.toNat % 256
    let bv := b.toNat % 256
    [b64ch (av / 4), b64ch (av % 4 * 16 + bv / 16), b64ch (bv % 16 * 4), '=']
  | a :: b :: c :: t =>
    let av := a.toNat % 256
    let bv := b.toNat % 256
    let cv := c.toNat % 256
    [b64ch (av / 4), b64ch (av % 4 * 16 + bv / 16),
     b64ch (bv % 16 * 4 + cv / 64), b64ch (cv % 64)] ++ base64_encode t

/-- Embedding of send_str (src/http.c). -/
def send_str (c : http_connection) (s : List Char) : http_connection :=
  buffered_send c s

/-- Embedding of send_line (src/http.c): send each variadic part in order,
then the CRLF terminator. -/
def send_line (c : http_connection) (parts : List (List Char)) :
    http_connection :=
  send_str (parts.foldl send_str c) ("\r\n".toList)

/-- Embedding of send_header (src/http.c). -/
def send_header (c : http_connection) (field value : List Char) :
    http_connection :=
  send_line c [field, ": ".toList, value]

/-- Embedding of send_range_header (src/http.c); the value is rendered into
a 32-byte buffer, hence the truncation to 31 characters. -/
def send_range_header (c : http_connection) (first last : Nat) :
    http_connection :=
  let v :=
    if last ≠ SIZE_MAX then
      ("bytes=".toList ++ (Nat.repr first).toList ++ ['-'] ++
        (Nat.repr last).toList).take 31
    else ("bytes=".toList ++ (Nat.repr first).toList ++ ['-']).take 31
  send_header c ("Range".toList) v

/-- Embedding of send_host_header (src/http.c); the ":port" suffix is
rendered into a 16-byte buffer, hence the truncation to 15 characters, and
is present only for a non-negative port. -/
def send_host_header (c : http_connection) (host : List Char) (port : Int) :
    http_connection :=
  let pbuf := if 0 ≤ port then ([':'] ++ (Int.repr port).toList).take 15 else []
  send_line c ["Host: ".toList, host, pbuf]

/-- Embedding of send_auth_header (src/http.c). -/
def send_auth_header (c : http_connection) (creds : List Char) :
    http_connection :=
  send_header c ("Authorization".toList) ("Basic ".toList ++ base64_encode creds)

/-- Embedding of send_request (src/http.c): request line, mandatory Host,
optional Authorization, Connection: close, optional Range, empty line,
final flush; succeeds iff the connection has not failed. -/
def send_request (c : http_connection) (info : http_request_info) :
    Bool × http_connection :=
  let c1 := send_line c [info.command, " ".toList, info.path, " HTTP/1.1".toList]
  let c2 := send_host_header c1 info.host info.port
  let c3 := match info.creds with
    | some cr => send_auth_header c2 cr
    | none => c2
  let c4 := send_header c3 ("Connection".toList) ("close".toList)
  let c5 := if info.want_range then send_range_header c4 info.range_first info.range_last
            else c4
  let c6 := send_line c5 []
  let c7 := flush_buffer c6
  (!c7.failed, c7)

/-- Budget condition of the redirect loop (src/http.c line 879): the loop
stops on the budget check iff max_redirections >= 0 && max_redirections == 0
(the post-decrement makes the comparison read the old value). -/
def redirect_budget_hit (m : Int) : Bool := decide (0 ≤ m) && decide (m = 0)

/-- Budget update of the redirect loop: the post-decrement in
i.max_redirections-- happens only when the short-circuited left conjunct
max_redirections >= 0 held. -/
def redirect_budget_next (m : Int) : Int := if 0 ≤ m then m - 1 else m

/-- Credential scoping and target adoption of the redirect loop (src/http.c
lines 908-919): credentials are dropped unless the new host matches the
current host case-insensitively or forwarding was explicitly permitted (an
absent host never compares equal - in the C code that comparison is a null
dereference, recorded separately); then host and port are adopted when the
target has a host, and the path always is. -/
def redirect_target_info (i : http_request_info) (url : url_struct) :
    http_request_info :=
  let sameHost : Bool := match url.host with
    | some h => strcaseEq h i.host
    | none => false
  let i2 :=
    if i.creds.isSome && !i.trusted_location && !sameHost then
      { i with creds := none }
    else i
  let i3 := match url.host with
    | some h => { i2 with host := h, port := url.port }
    | none => i2
  { i3 with path := url.path }

/-- True when the credential-scoping comparison strcasecmp(url->host,
i.host) of src/http.c line 912 is evaluated with url->host == NULL. -/
def redirect_null_host_read (i : http_request_info) (url : url_struct) : Bool :=
  i.creds.isSome && !i.trusted_location && url.host == none

/-- Result of the redirect loop: the returned flag and response, the number
of attempts performed, and an instrumentation bit recording that the
credential-scoping comparison strcasecmp(url->host, i.host) was evaluated
with url->host == NULL (undefined behaviour in the C code). -/
structure loop_result where
  ret : Bool
  resp : http_response
  attempts : Nat
  nullHostRead : Bool
deriving DecidableEq, Repr

/-- Loop of http_simple_request (src/http.c lines 873-920), fuelled, with
each attempt's outcome supplied by the oracle (the server's behaviour for
the k-th attempt with the given request): budget check, redirection-class
check, missing-Location check, scheme check, credential scoping, adoption
of the new host/port/path.  none when the fuel is exhausted before the
loop breaks. -/
def http_simple_request_go
    (oracle : Nat → http_request_info → Bool × http_response) :
    Nat → http_request_info → Nat → Bool → Option loop_result
  | 0, _, _, _ => none
  | fuel + 1, i, k, nf =>
    let (ret, resp) := oracle k i
    if ret = false then some ⟨false, resp, k + 1, nf⟩
    else
      let hit := redirect_budget_hit i.max_redirections
      let i1 := { i with max_redirections := redirect_budget_next i.max_redirections }
      if hit then some ⟨true, resp, k + 1, nf⟩
      else if ¬HTTP_STATUS_REDIRECT resp.status then some ⟨true, resp, k + 1, nf⟩
      else
        match resp.location with
        | none => some ⟨true, resp, k + 1, nf⟩
        | some url =>
          let schemeBad : Bool := match url.scheme with
            | some sch => sch != "http".toList
            | none => false
          if schemeBad then some ⟨true, resp, k + 1, nf⟩
          else
            http_simple_request_go oracle fuel (redirect_target_info i1 url)
              (k + 1) (nf || redirect_null_host_read i1 url)

/-- Embedding of http_simple_request (src/http.c): run the redirect loop
from attempt 0 on a copy of the caller's request info. -/
def http_simple_request
    (oracle : Nat → http_request_info → Bool × http_response)
    (fuel : Nat) (info : http_request_info) : Option loop_result :=
  http_simple_request_go oracle fuel info 0 false

/-- A connection as init_response creates it (src/http.c): no data buffered,
nothing sent, no failure recorded. -/
def fresh_conn (stream : List Char) : http_connection :=
  { failed := false, stream := stream, sent := [], bufBegin := 0, bufEnd := 0,
    bufData := [], lastError := none }

/-- Outcome of a sequence of http_response_read calls. -/
inductive run_out where
  | ok (total : Nat) (resp : http_response)
  | err (resp : http_response)
deriving Repr

/-- Perform one http_response_read per element of lens (the caller's buffer
sizes), accumulating the bytes delivered; err as soon as a read returns a
negative value. -/
def runReads (resp : http_response) : List Nat → run_out
  | [] => .ok 0 resp
  | l :: ls =>
    let (r, _, resp1) := http_response_read resp l
    if r < 0 then .err resp1
    else
      match runReads resp1 ls with
      | .ok t rf => .ok (r.toNat + t) rf
      | .err rf => .err rf

/-- Embedding of init_response (src/http.c): the response is zeroed and the
connection gets a fresh buffer; the stream parameter is the byte sequence
the peer will deliver on the new socket. -/
def init_response (stream : List Char) : http_response :=
  { conn := fresh_conn stream, version := 0, status := 0, reason := [],
    ranged := false, chunked := false, body_size := 0, body_read := 0,
    range_first := 0, range_last := 0, range_total := 0, chunk_size := 0,
    location := none }

/-- Requested range in the words of the claim: (range_first, range_last)
when the request set want_range with a concrete last, (range_first,
total - 1) when the request's last was open-ended, (0, total - 1) when the
request asked for no range.  Stated from the specification for comparison
with the embedded check_range. -/
def spec_requested_range (info : http_request_info) (total : Nat) : Nat × Nat :=
  if info.want_range then
    if info.range_last ≠ SIZE_MAX then (info.range_first, info.range_last)
    else (info.range_first, total - 1)
  else (0, total - 1)

/-- Request used to instantiate claim C5: Range 100-199 requested. -/
def c5w_req : http_request_info :=
  { host := "example.org".toList, port := -1, command := "GET".toList,
    path := "/".toList, creds := none, trusted_location := false,
    want_range := true, range_first := 100, range_last := 199,
    max_redirections := -1 }

/-- Response used to instantiate claim C5: Content-Range bytes 100-199/500
was accepted. -/
def c5w_resp : http_response :=
  { init_response [] with
    status := 206
    ranged := true
    range_first := 100
    range_last := 199
    range_total := 500 }

/-- Frame relation between the result connection of a receive-path operation
and its input: the send direction, the error slot and the failed flag are
untouched, and a failed connection's socket stream is untouched. -/
def conn_frame (a b : http_connection) : Prop :=
  a.sent = b.sent ∧ a.lastError = b.lastError ∧ a.failed = b.failed ∧
  (b.failed = true → a.stream = b.stream)

/-- Connection with the sticky failed flag set and one byte left over in the
shared buffer, with an error recorded. -/
def c7cex_conn : http_connection :=
  { failed := true, stream := ['y'], sent := [], bufBegin := 0, bufEnd := 1,
    bufData := ['x'], lastError := some http_err.bodyShort }

/-- Connection whose buffer holds a 20-character line followed by the
newline: the line terminator lies beyond 16 bytes from the line start. -/
def c9_conn : http_connection :=
  { failed := false, stream := [], sent := [],
    bufBegin := 0, bufEnd := 21,
    bufData := "aaaaaaaaaaaaaaaaaaaa\n".toList, lastError := none }

/-- Request that carries credentials without permission to forward them. -/
def c10_req : http_request_info :=
  { host := "hosta".toList, port := -1, command := "GET".toList,
    path := "/".toList, creds := some ("user:pw".toList),
    trusted_location := false, want_range := false, range_first := 0,
    range_last := 0, max_redirections := 1 }

/-- A 302 response whose Location header is the bare path "/next", which
url_parse accepts with the host component absent. -/
def c10_resp : http_response :=
  { init_response [] with status := 302, location := url_alloc ("/next".toList) }

/-- Server behaviour answering every attempt with that 302 response. -/
def c10_oracle : Nat → http_request_info → Bool × http_response :=
  fun _ _ => (true, c10_resp)

/-- Bytes of the CRLF line terminator. -/
def crlf : List Char := "\r\n".toList

/-- Bytes of the ":port" suffix of the Host header (empty for port < 0,
rendered into a 16-byte buffer). -/
def host_suffix_bytes (port : Int) : List Char :=
  if 0 ≤ port then ([':'] ++ (Int.repr port).toList).take 15 else []

/-- Bytes of the Host header line. -/
def host_line_bytes (host : List Char) (port : Int) : List Char :=
  "Host: ".toList ++ host ++ host_suffix_bytes port ++ crlf

/-- Bytes of the Authorization header line for the given credentials. -/
def auth_line_bytes (cr : List Char) : List Char :=
  "Authorization".toList ++ ": ".toList ++
    ("Basic ".toList ++ base64_encode cr) ++ crlf

/-- Bytes of the fixed Connection: close header line. -/
def conn_line_bytes : List Char :=
  "Connection".toList ++ ": ".toList ++ "close".toList ++ crlf

/-- Bytes of the Range header value (rendered into a 32-byte buffer). -/
def range_value_bytes (first last : Nat) : List Char :=
  if last ≠ SIZE_MAX then
    ("bytes=".toList ++ (Nat.repr first).toList ++ ['-'] ++
      (Nat.repr last).toList).take 31
  else ("bytes=".toList ++ (Nat.repr first).toList ++ ['-']).take 31

/-- Bytes of the Range header line. -/
def range_line_bytes (first last : Nat) : List Char :=
  "Range".toList ++ ": ".toList ++ range_value_bytes first last ++ crlf

/-- Bytes of the request line. -/
def request_line_bytes (info : http_request_info) : List Char :=
  info.command ++ " ".toList ++ info.path ++ " HTTP/1.1".toList ++ crlf

/-- The full serialized request of send_request: request line, Host header,
Authorization header exactly when credentials are present, Connection:
close, Range header exactly when a range was requested, empty line. -/
def request_bytes (info : http_request_info) : List Char :=
  request_line_bytes info ++
  host_line_bytes info.host info.port ++
  (match info.creds with
   | some cr => auth_line_bytes cr
   | none => []) ++
  conn_line_bytes ++
  (if info.want_range then range_line_bytes info.range_first info.range_last
   else []) ++
  crlf

/-- Concrete request for the claim C8 counterexample. -/
def c8_info : http_request_info :=
  { host := "h".toList, port := -1, command := "GET".toList,
    path := "/".toList, creds := none, trusted_location := false,
    want_range := false, range_first := 0, range_last := 0,
    max_redirections := 0 }

/-- Request with credentials to hosta, forwarding not permitted. -/
def c2w_req : http_request_info :=
  { host := "hosta".toList, port := -1, command := "GET".toList,
    path := "/".toList, creds := some ("user:pw".toList),
    trusted_location := false, want_range := false, range_first := 0,
    range_last := 0, max_redirections := 5 }

/-- Redirect target on a different host. -/
def c2w_urlB : url_struct :=
  { scheme := some ("http".toList), host := some ("hostb".toList),
    port := -1, path := "/b".toList, name := "b".toList }

/-- Redirect target on the same host, in a different letter case. -/
def c2w_urlA : url_struct :=
  { scheme := some ("http".toList), host := some ("HOSTA".toList),
    port := -1, path := "/a".toList, name := "a".toList }

/-- Redirect target of the C1 witness: no scheme, host present. -/
def c1w_u : url_struct :=
  { scheme := none, host := some ("h".toList), port := 80,
    path := "/p".toList, name := [] }

/-- 302 response of the C1 witness. -/
def c1w_resp : http_response :=
  { init_response [] with status := 302, location := some c1w_u }

/-- Server of the C1 witness: every attempt succeeds with the same 302. -/
def c1w_oracle : Nat → http_request_info → Bool × http_response :=
  fun _ _ => (true, c1w_resp)

/-- Request of the C1 witness: budget 2. -/
def c1w_i : http_request_info :=
  { host := "a".toList, port := 80, command := "GET".toList,
    path := "/".toList, creds := none, trusted_location := false,
    want_range := false, range_first := 0, range_last := 0,
    max_redirections := 2 }

/-- C4 witness response: Content-Length 3, five bytes available. -/
def c4w_ok : http_response :=
  ⟨⟨false, "abcde".toList, [], 0, 0, [], none⟩,
   1, 200, [], false, false, 3, 0, 0, 0, 0, 0, none⟩

/-- C4 witness response: Content-Length 5, only two bytes available. -/
def c4w_short : http_response :=
  ⟨⟨false, "ab".toList, [], 0, 0, [], none⟩,
   1, 200, [], false, false, 5, 0, 0, 0, 0, 0, none⟩

/-- The terminating zero-size chunk line "0\r\n" of the C3 wire. -/
def chunkFin : List Char := '0' :: '\r' :: '\n' :: []

/-- Bytes remaining in the current chunk after d of the 8 body bytes of the
chunks [5, 3, 0] were delivered. -/
def chunkRem (d : Nat) : Nat := if d < 5 then 5 - d else 8 - d

/-- Content of the connection buffer after d body bytes were delivered,
for chunk data c1 and c2 and trailing bytes fin after the second chunk's
CRLF (the zero-size chunk line, or nothing for a truncated stream). -/
def chunkTail (c1 c2 fin : List Char) (d : Nat) : List Char :=
  if d < 5 then
    c1.drop d ++
      ('\r' :: '\n' :: '3' :: '\r' :: '\n' :: (c2 ++ ('\r' :: '\n' :: fin)))
  else c2.drop (d - 5) ++ ('\r' :: '\n' :: fin)

/-- Decoder state invariant for the chunked body [5, 3, 0]: everything the
peer will deliver is already buffered, d body bytes were delivered, and the
chunk bookkeeping matches d. -/
def ChunkSt (c1 c2 fin : List Char) (d : Nat) (resp : http_response) : Prop :=
  resp.chunked = true ∧ resp.conn.failed = false ∧ resp.conn.stream = [] ∧
  resp.body_read = d ∧ resp.chunk_size = chunkRem d ∧
  resp.conn.bufData = (if d < 8 then chunkTail c1 c2 fin d else [])

/-- C3 witness response: well-formed chunked wire for chunks "abcde",
"xyz", terminated by the zero-size chunk. -/
def c3w_good : http_response :=
  ⟨⟨false, ("5\r\nabcde\r\n3\r\nxyz\r\n0\r\n").toList, [], 0, 0, [], none⟩,
   1, 200, [], false, true, 0, 0, 0, 0, 0, 0, none⟩

/-- C3 witness response: the same wire with the zero-size chunk missing. -/
def c3w_trunc : http_response :=
  ⟨⟨false, ("5\r\nabcde\r\n3\r\nxyz\r\n").toList, [], 0, 0, [], none⟩,
   1, 200, [], false, true, 0, 0, 0, 0, 0, 0, none⟩

/-- For a positive total (guaranteed whenever a Content-Range header was
accepted), check_range accepts exactly when the achieved range equals the
requested range in the specification's sense. -/
theorem check_range_iff (info : http_request_info) (resp : http_response)
    (h : 1 ≤ resp.range_total) :
    check_range info resp = true ↔
      (resp.range_first, resp.range_last) = spec_requested_range info resp.range_total := by
  unfold check_range spec_requested_range
  simp only [Bool.and_eq_true, beq_iff_eq, Prod.mk.injEq]
  split_ifs <;> simp_all <;> omega

/-- Claim C5: for every request and every response marked partial (a
Content-Range header was accepted, hence range_last < range_total), the
attempt succeeds only if the achieved (first, last) range equals the
requested range — (range_first, range_last) for a concrete requested range,
(range_first, total - 1) for an open-ended one, (0, total - 1) when no range
was requested — and any mismatch makes the whole attempt fail with an
error. -/
theorem c5_range_validation (info : http_request_info) (resp : http_response)
    (hr : resp.ranged = true) (hacc : resp.range_last < resp.range_total) :
    ((finish_attempt info resp).1 = true →
      (resp.range_first, resp.range_last) = spec_requested_range info resp.range_total) ∧
    ((resp.range_first, resp.range_last) ≠ spec_requested_range info resp.range_total →
      (finish_attempt info resp).1 = false ∧
      ((finish_attempt info resp).2).conn.lastError = some http_err.rangeMismatch) := by
  have htot : 1 ≤ resp.range_total := by omega
  have hiff := check_range_iff info resp htot
  constructor
  · intro hok
    by_contra hne
    have hcf : check_range info resp = false := by
      rcases Bool.eq_false_or_eq_true (check_range info resp) with h | h
      · exact absurd (hiff.mp h) hne
      · exact h
    unfold finish_attempt at hok
    rw [if_pos ⟨hr, by simp [hcf]⟩] at hok
    simp at hok
  · intro hne
    have hcf : check_range info resp = false := by
      rcases Bool.eq_false_or_eq_true (check_range info resp) with h | h
      · exact absurd (hiff.mp h) hne
      · exact h
    unfold finish_attempt
    rw [if_pos ⟨hr, by simp [hcf]⟩]
    exact ⟨rfl, rfl⟩

/-- Witness for claim C5 at the request Range 100-199 against a response
with Content-Range bytes 100-199/500: the hypotheses hold, the theorem
applies, and this matching attempt indeed succeeds. -/
theorem c5_range_validation_witness :
    (c5w_resp.ranged = true ∧ c5w_resp.range_last < c5w_resp.range_total) ∧
    (((finish_attempt c5w_req c5w_resp).1 = true →
       (c5w_resp.range_first, c5w_resp.range_last) =
         spec_requested_range c5w_req c5w_resp.range_total) ∧
     ((c5w_resp.range_first, c5w_resp.range_last) ≠
         spec_requested_range c5w_req c5w_resp.range_total →
       (finish_attempt c5w_req c5w_resp).1 = false ∧
       ((finish_attempt c5w_req c5w_resp).2).conn.lastError =
         some http_err.rangeMismatch)) ∧
    (finish_attempt c5w_req c5w_resp).1 = true :=
  ⟨⟨by decide, by decide⟩,
   c5_range_validation c5w_req c5w_resp (by decide) (by decide),
   by decide⟩

/-- Dispatch of handle_header for the Content-Length field. -/
theorem handle_header_content_length (v : List Char) (resp : http_response) :
    handle_header ("Content-Length".toList) v resp =
      handle_content_length_header v resp := by
  rfl

/-- Dispatch of handle_header for the Transfer-Encoding field. -/
theorem handle_header_transfer_encoding (v : List Char) (resp : http_response) :
    handle_header ("Transfer-Encoding".toList) v resp =
      handle_transfer_encoding_header v resp := by
  rfl

/-- Transfer-Encoding handler when the value ends with "chunked". -/
theorem handle_te_chunked (s : List Char) (resp : http_response)
    (h7 : 7 ≤ s.length)
    (hc : strcaseEq (s.drop (s.length - 7)) ("chunked".toList) = true) :
    handle_transfer_encoding_header s resp =
      (true, { resp with chunked := true, body_size := 0 }) := by
  unfold handle_transfer_encoding_header
  exact if_pos ⟨h7, hc⟩

/-- Content-Length handler on an already-chunked response is a no-op. -/
theorem handle_cl_ignored (s : List Char) (resp : http_response)
    (h : resp.chunked = true) :
    handle_content_length_header s resp = (true, resp) := by
  unfold handle_content_length_header
  exact if_pos h

/-- Content-Length handler on a non-chunked response stores the parsed
size. -/
theorem handle_cl_stores (s : List Char) (resp : http_response) (N : Nat)
    (h : resp.chunked = false) (hp : parse_size s 10 = some N) :
    handle_content_length_header s resp =
      (true, { resp with body_size := N }) := by
  unfold handle_content_length_header
  rw [if_neg (by simp [h]), hp]

/-- Claim C6: for every header block containing a Content-Length header
whose value parses to N and a Transfer-Encoding header whose value ends with
the token "chunked" in any letter case, both handler applications succeed,
the parsed response is chunked with declared body size 0, and the outcome on
the (chunked, body_size) fields is the same for both header orders. -/
theorem c6_cl_te_commute (resp : http_response) (sCL sTE : List Char) (N : Nat)
    (hcl : parse_size sCL 10 = some N)
    (hlen : 7 ≤ sTE.length)
    (hte : strcaseEq (sTE.drop (sTE.length - 7)) ("chunked".toList) = true) :
    (handle_header ("Content-Length".toList) sCL resp).1 = true ∧
    (handle_header ("Transfer-Encoding".toList) sTE
      (handle_header ("Content-Length".toList) sCL resp).2).1 = true ∧
    (handle_header ("Transfer-Encoding".toList) sTE resp).1 = true ∧
    (handle_header ("Content-Length".toList) sCL
      (handle_header ("Transfer-Encoding".toList) sTE resp).2).1 = true ∧
    (handle_header ("Transfer-Encoding".toList) sTE
      (handle_header ("Content-Length".toList) sCL resp).2).2.chunked = true ∧
    (handle_header ("Transfer-Encoding".toList) sTE
      (handle_header ("Content-Length".toList) sCL resp).2).2.body_size = 0 ∧
    (handle_header ("Content-Length".toList) sCL
      (handle_header ("Transfer-Encoding".toList) sTE resp).2).2.chunked = true ∧
    (handle_header ("Content-Length".toList) sCL
      (handle_header ("Transfer-Encoding".toList) sTE resp).2).2.body_size = 0 := by
  rw [handle_header_content_length, handle_header_transfer_encoding,
      handle_header_transfer_encoding, handle_header_content_length]
  rw [handle_te_chunked sTE resp hlen hte]
  cases hch : resp.chunked with
  | true =>
    rw [handle_cl_ignored sCL resp hch,
        handle_te_chunked sTE resp hlen hte,
        handle_cl_ignored sCL { resp with chunked := true, body_size := 0 } rfl]
    simp
  | false =>
    rw [handle_cl_stores sCL resp N hch hcl,
        handle_te_chunked sTE { resp with body_size := N } hlen hte,
        handle_cl_ignored sCL { resp with chunked := true, body_size := 0 } rfl]
    simp

/-- Witness for claim C6 with Content-Length: 123 and
Transfer-Encoding: chunked on a fresh response. -/
theorem c6_cl_te_commute_witness :
    (parse_size ("123".toList) 10 = some 123 ∧
     7 ≤ ("chunked".toList).length ∧
     strcaseEq (("chunked".toList).drop (("chunked".toList).length - 7))
       ("chunked".toList) = true) ∧
    ((handle_header ("Content-Length".toList) ("123".toList)
        (init_response [])).1 = true ∧
     (handle_header ("Transfer-Encoding".toList) ("chunked".toList)
       (handle_header ("Content-Length".toList) ("123".toList)
         (init_response [])).2).1 = true ∧
     (handle_header ("Transfer-Encoding".toList) ("chunked".toList)
        (init_response [])).1 = true ∧
     (handle_header ("Content-Length".toList) ("123".toList)
       (handle_header ("Transfer-Encoding".toList) ("chunked".toList)
         (init_response [])).2).1 = true ∧
     (handle_header ("Transfer-Encoding".toList) ("chunked".toList)
       (handle_header ("Content-Length".toList) ("123".toList)
         (init_response [])).2).2.chunked = true ∧
     (handle_header ("Transfer-Encoding".toList) ("chunked".toList)
       (handle_header ("Content-Length".toList) ("123".toList)
         (init_response [])).2).2.body_size = 0 ∧
     (handle_header ("Content-Length".toList) ("123".toList)
       (handle_header ("Transfer-Encoding".toList) ("chunked".toList)
         (init_response [])).2).2.chunked = true ∧
     (handle_header ("Content-Length".toList) ("123".toList)
       (handle_header ("Transfer-Encoding".toList) ("chunked".toList)
         (init_response [])).2).2.body_size = 0) :=
  ⟨⟨by decide, by decide, by decide⟩,
   c6_cl_te_commute (init_response []) ("123".toList) ("chunked".toList) 123
     (by decide) (by decide) (by decide)⟩

/-- A failed connection makes do_send a complete no-op. -/
theorem do_send_failed (c : http_connection) (data : List Char)
    (h : c.failed = true) : do_send c data = c := by
  simp [do_send, h]

/-- A failed connection makes do_recv return 0 without touching anything. -/
theorem do_recv_failed (c : http_connection) (len : Nat) (ex : Bool)
    (h : c.failed = true) : do_recv c len ex = (0, [], c) := by
  simp [do_recv, h]

/-- A failed connection makes buffered_send a complete no-op. -/
theorem buffered_send_failed (c : http_connection) (data : List Char)
    (h : c.failed = true) : buffered_send c data = c := by
  unfold buffered_send
  rw [show data.length * 2 + 2 = (data.length * 2 + 1) + 1 from rfl]
  unfold buffered_send_go
  simp [h]

/-- On a failed connection flush_buffer sends nothing and only resets the
buffer region. -/
theorem flush_buffer_failed (c : http_connection) (h : c.failed = true) :
    flush_buffer c = { c with bufBegin := 0, bufEnd := 0, bufData := [] } := by
  simp [flush_buffer, do_send, h]

/-- On a failed connection buffered_recv performs no socket receive: it only
drains bytes that were already buffered. -/
theorem buffered_recv_failed (c : http_connection) (len : Nat)
    (h : c.failed = true) :
    (buffered_recv c len).1 = min c.bufData.length len ∧
    (buffered_recv c len).2.1 = c.bufData.take len ∧
    (buffered_recv c len).2.2.sent = c.sent ∧
    (buffered_recv c len).2.2.stream = c.stream ∧
    (buffered_recv c len).2.2.lastError = c.lastError ∧
    (buffered_recv c len).2.2.failed = true := by
  unfold buffered_recv copy_from_buffer do_recv
  rcases Nat.eq_zero_or_pos c.bufData.length with hb | hb
  · rcases List.eq_nil_of_length_eq_zero hb with hnil
    simp [hnil, h]
  · rcases Nat.eq_zero_or_pos len with hl | hl
    · simp [hl, Nat.pos_iff_ne_zero.mp hb, h]
    · have hmin : ¬ (min c.bufData.length len = 0) := by omega
      simp only [Nat.pos_iff_ne_zero.mp hb, if_false, ite_not, hmin, if_true,
        reduceIte, h]
      rcases le_or_lt len c.bufData.length with hle | hlt
      · have : min c.bufData.length len = len := by omega
        simp [this]
      · have hm : min c.bufData.length len = c.bufData.length := by omega
        simp only [hm]
        have hpos : 0 < len - c.bufData.length := by omega
        simp [hpos, List.take_of_length_le (Nat.le_of_lt hlt),
              List.take_length]

theorem conn_frame_refl (a : http_connection) : conn_frame a a :=
  ⟨rfl, rfl, rfl, fun _ => rfl⟩

theorem conn_frame_trans {a b c : http_connection}
    (h1 : conn_frame a b) (h2 : conn_frame b c) : conn_frame a c := by
  obtain ⟨s1, e1, f1, t1⟩ := h1
  obtain ⟨s2, e2, f2, t2⟩ := h2
  refine ⟨s1.trans s2, e1.trans e2, f1.trans f2, fun hc => ?_⟩
  exact (t1 ((f2.trans hc))).trans (t2 hc)

/-- Refill never touches the send direction or the error slot, and on a
failed connection it receives nothing at all. -/
theorem refill_buffer_frame (c : http_connection) :
    conn_frame (refill_buffer c).2 c ∧
    (c.failed = true →
      (refill_buffer c).1 = 0 ∧ (refill_buffer c).2.bufData = c.bufData) := by
  unfold conn_frame
  by_cases hb : c.bufData.length = 0 <;> by_cases hf : c.failed <;>
    simp [refill_buffer, do_recv, hb, hf]

/-- Copy-from-buffer only moves bytes out of the buffer region. -/
theorem copy_from_buffer_frame (c : http_connection) (n : Nat) :
    conn_frame (copy_from_buffer c n).2.2 c ∧
    (copy_from_buffer c n).2.2.stream = c.stream := by
  unfold conn_frame copy_from_buffer
  by_cases hz : min c.bufData.length n = 0 <;> simp [hz]

/-- The recv_line loop never touches the send direction or the error slot,
never changes the failed flag, and on a failed connection never touches the
socket stream. -/
theorem recv_line_go_frame :
    ∀ (fuel : Nat) (c : http_connection) (bs ll : Nat) (w : List Char),
    conn_frame (recv_line_go fuel c bs ll w).2.2 c := by
  intro fuel
  induction fuel with
  | zero => intro c bs ll w; simp [recv_line_go]; exact conn_frame_refl c
  | succ fl ih =>
    intro c bs ll w
    unfold recv_line_go
    by_cases h1 : bs ≤ ll
    · simp only [h1, if_true, reduceIte]; exact conn_frame_refl c
    · simp only [h1, if_false, reduceIte]
      by_cases hb : c.bufData.length = 0
      · simp only [hb, reduceIte]
        obtain ⟨hfr, hrest⟩ := refill_buffer_frame c
        rcases hrf : refill_buffer c with ⟨got, c1⟩
        rw [hrf] at hfr hrest
        simp only at hfr hrest
        simp only [hrf]
        by_cases hg : got = 0
        · simp only [hg, reduceIte]; exact hfr
        · simp only [hg, reduceIte]
          obtain ⟨hcr, _⟩ := copy_from_buffer_frame c1
            (match c1.bufData.findIdx? (fun x => x == '\n') with
             | some p => p
             | none => bs - ll)
          rcases hcf : copy_from_buffer c1
              (match c1.bufData.findIdx? (fun x => x == '\n') with
               | some p => p
               | none => bs - ll) with ⟨n2, bytes, c2⟩
          rw [hcf] at hcr
          simp only at hcr
          cases hp : c1.bufData.findIdx? (fun x => x == '\n') with
          | some p =>
            rw [hp] at hcf
            simp only [hp, hcf]
            refine conn_frame_trans ?_ hfr
            exact conn_frame_trans ⟨rfl, rfl, rfl, fun _ => rfl⟩ hcr
          | none =>
            rw [hp] at hcf
            simp only [hp, hcf]
            exact conn_frame_trans (conn_frame_trans (ih _ _ _ _) hcr) hfr
      · simp only [hb, reduceIte]
        simp only [show ¬((1 : Nat) = 0) from by decide, reduceIte]
        obtain ⟨hcr, _⟩ := copy_from_buffer_frame c
          (match c.bufData.findIdx? (fun x => x == '\n') with
           | some p => p
           | none => bs - ll)
        rcases hcf : copy_from_buffer c
            (match c.bufData.findIdx? (fun x => x == '\n') with
             | some p => p
             | none => bs - ll) with ⟨n2, bytes, c2⟩
        rw [hcf] at hcr
        simp only at hcr
        cases hp : c.bufData.findIdx? (fun x => x == '\n') with
        | some p =>
          rw [hp] at hcf
          simp only [hp, hcf]
          exact conn_frame_trans ⟨rfl, rfl, rfl, fun _ => rfl⟩ hcr
        | none =>
          rw [hp] at hcf
          simp only [hp, hcf]
          exact conn_frame_trans (ih _ _ _ _) hcr

/-- Counterexample to claim C7 as stated: on a connection whose failed flag
is set but whose shared buffer still holds a byte, buffered_recv returns
that byte rather than no data, and changes the connection's observable
state (the buffer region advances). -/
theorem c7_sticky_failed_cex :
    (buffered_recv c7cex_conn 1).1 = 1 ∧
    (buffered_recv c7cex_conn 1).2.1 = ['x'] ∧
    (buffered_recv c7cex_conn 1).2.2 ≠ c7cex_conn := by
  refine ⟨by decide, by decide, by decide⟩

/-- Claim C7 as amended: once the failed flag is set, every subsequent
operation performs no socket I/O (the stream and the transmitted bytes are
untouched) and never overwrites the stored error; do_send, do_recv and
buffered_send are complete no-ops, while flush_buffer discards the buffered
region and buffered_recv and recv_line may still drain bytes that were
already buffered. -/
theorem c7_sticky_failed (c : http_connection) (h : c.failed = true) :
    (∀ data, do_send c data = c) ∧
    (∀ len ex, do_recv c len ex = (0, [], c)) ∧
    (∀ data, buffered_send c data = c) ∧
    (flush_buffer c = { c with bufBegin := 0, bufEnd := 0, bufData := [] }) ∧
    (∀ len,
      (buffered_recv c len).2.2.sent = c.sent ∧
      (buffered_recv c len).2.2.stream = c.stream ∧
      (buffered_recv c len).2.2.lastError = c.lastError ∧
      (buffered_recv c len).2.2.failed = true ∧
      (buffered_recv c len).1 = min c.bufData.length len ∧
      (buffered_recv c len).2.1 = c.bufData.take len) ∧
    (∀ bs,
      (recv_line c bs).2.2.sent = c.sent ∧
      (recv_line c bs).2.2.stream = c.stream ∧
      (recv_line c bs).2.2.lastError = c.lastError ∧
      (recv_line c bs).2.2.failed = true) := by
  refine ⟨fun data => do_send_failed c data h,
          fun len ex => do_recv_failed c len ex h,
          fun data => buffered_send_failed c data h,
          flush_buffer_failed c h,
          fun len => ?_,
          fun bs => ?_⟩
  · obtain ⟨h1, h2, h3, h4, h5, h6⟩ := buffered_recv_failed c len h
    exact ⟨h3, h4, h5, h6, h1, h2⟩
  · have hfr := recv_line_go_frame (c.stream.length + c.bufData.length + 1)
      c bs 0 []
    obtain ⟨hs, he, hf, ht⟩ := hfr
    unfold recv_line
    rcases hgo : recv_line_go (c.stream.length + c.bufData.length + 1)
        c bs 0 [] with ⟨ll, w, c1⟩
    rw [hgo] at hs he hf ht
    simp only at hs he hf ht
    exact ⟨hs, ht h, he, hf.trans h⟩

/-- Witness for the amended claim C7 at a concrete failed connection. -/
theorem c7_sticky_failed_witness :
    c7cex_conn.failed = true ∧
    ((∀ data, do_send c7cex_conn data = c7cex_conn) ∧
     (∀ len ex, do_recv c7cex_conn len ex = (0, [], c7cex_conn)) ∧
     (∀ data, buffered_send c7cex_conn data = c7cex_conn) ∧
     (flush_buffer c7cex_conn =
       { c7cex_conn with bufBegin := 0, bufEnd := 0, bufData := [] }) ∧
     (∀ len,
       (buffered_recv c7cex_conn len).2.2.sent = c7cex_conn.sent ∧
       (buffered_recv c7cex_conn len).2.2.stream = c7cex_conn.stream ∧
       (buffered_recv c7cex_conn len).2.2.lastError = c7cex_conn.lastError ∧
       (buffered_recv c7cex_conn len).2.2.failed = true ∧
       (buffered_recv c7cex_conn len).1 = min c7cex_conn.bufData.length len ∧
       (buffered_recv c7cex_conn len).2.1 = c7cex_conn.bufData.take len) ∧
     (∀ bs,
       (recv_line c7cex_conn bs).2.2.sent = c7cex_conn.sent ∧
       (recv_line c7cex_conn bs).2.2.stream = c7cex_conn.stream ∧
       (recv_line c7cex_conn bs).2.2.lastError = c7cex_conn.lastError ∧
       (recv_line c7cex_conn bs).2.2.failed = true)) :=
  ⟨by decide, c7_sticky_failed c7cex_conn (by decide)⟩

/-- Claim C9 (code bug): recv_line is documented to truncate the line to
buf_size characters, but when the newline is found inside the shared buffer
the copy length is the distance to the newline, unclamped by the remaining
room: with a 16-byte destination (load_chunk's chunk-size buffer) and a
20-character line already buffered, recv_line writes 20 bytes into the
16-byte destination and returns 20. -/
theorem c9_recv_line_overflow :
    ((recv_line c9_conn 16).2.1).length = 20 ∧
    16 < ((recv_line c9_conn 16).2.1).length ∧
    (recv_line c9_conn 16).1 = 20 := by
  refine ⟨by decide, by decide, by decide⟩

/-- Claim C10 (code bug): url_parse accepts the bare-path Location "/next"
with the host component absent, and on a redirect-following iteration with
credentials set and forwarding not permitted the credential-scoping
comparison of http_simple_request is reached with that absent host — the
instrumentation bit nullHostRead records that strcasecmp(url->host, i.host)
was evaluated with url->host == NULL (a null-pointer dereference in the C
code). -/
theorem c10_null_host_read :
    url_alloc ("/next".toList) =
      some { scheme := none, host := none, port := -1,
             path := "/next".toList, name := "next".toList } ∧
    http_simple_request c10_oracle 2 c10_req =
      some { ret := true, resp := c10_resp, attempts := 2,
             nullHostRead := true } := by
  refine ⟨by decide, by decide⟩

/-- Field equations for copy_to_buffer: it only appends to the buffer
region, moving min(BUF_SIZE - bufEnd, data.length) bytes. -/
theorem copy_to_buffer_fields (c : http_connection) (data : List Char) :
    (copy_to_buffer c data).2.sent = c.sent ∧
    (copy_to_buffer c data).2.failed = c.failed ∧
    (copy_to_buffer c data).2.stream = c.stream ∧
    (copy_to_buffer c data).2.lastError = c.lastError ∧
    (copy_to_buffer c data).2.bufData =
      c.bufData ++ data.take (copy_to_buffer c data).1 ∧
    (copy_to_buffer c data).1 = min (BUF_SIZE - c.bufEnd) data.length ∧
    (copy_to_buffer c data).2.bufEnd = c.bufEnd + (copy_to_buffer c data).1 := by
  unfold copy_to_buffer
  by_cases hz : min (BUF_SIZE - c.bufEnd) data.length = 0 <;> simp [hz]

/-- Field equations for flush_buffer on a healthy connection. -/
theorem flush_buffer_fields (c : http_connection) (hf : c.failed = false) :
    (flush_buffer c).sent = c.sent ++ c.bufData ∧
    (flush_buffer c).failed = false ∧
    (flush_buffer c).stream = c.stream ∧
    (flush_buffer c).lastError = c.lastError ∧
    (flush_buffer c).bufData = [] ∧
    (flush_buffer c).bufEnd = 0 := by
  simp [flush_buffer, do_send, hf]

/-- Invariant of the buffered_send loop: with enough fuel (each iteration
either moves at least one byte of data into the buffer or flushes, and a
flush is always followed by a moving iteration), the concatenation of sent
bytes and buffered bytes grows by exactly the data, and nothing else
changes. -/
theorem buffered_send_go_spec :
    ∀ (fuel : Nat) (c : http_connection) (data : List Char),
    c.failed = false → data.length * 2 + 2 ≤ fuel →
    (buffered_send_go fuel c data).sent ++ (buffered_send_go fuel c data).bufData
      = c.sent ++ c.bufData ++ data ∧
    (buffered_send_go fuel c data).failed = false ∧
    (buffered_send_go fuel c data).stream = c.stream ∧
    (buffered_send_go fuel c data).lastError = c.lastError := by
  intro fuel
  induction fuel using Nat.strong_induction_on with
  | _ fuel ih =>
    intro c data hf hb
    obtain ⟨f1, rfl⟩ : ∃ f1, fuel = f1 + 1 := ⟨fuel - 1, by omega⟩
    by_cases hnil : data = []
    · simp [buffered_send_go, hf, hnil]
    · have hlen : 1 ≤ data.length := by
        cases data with
        | nil => exact absurd rfl hnil
        | cons d ds => simp
      unfold buffered_send_go
      simp only [hf, Bool.false_eq_true, false_or, hnil, if_false, reduceIte]
      obtain ⟨q1, q2, q3, q4, q5, q6, q7⟩ := copy_to_buffer_fields c data
      rcases hct : copy_to_buffer c data with ⟨n, c1⟩
      rw [hct] at q1 q2 q3 q4 q5 q6 q7
      simp only at q1 q2 q3 q4 q5 q6 q7
      by_cases hn0 : n = 0
      · simp only [hn0, reduceIte]
        obtain ⟨w1, w2, w3, w4, w5, w6⟩ := flush_buffer_fields c hf
        obtain ⟨f2, rfl⟩ : ∃ f2, f1 = f2 + 1 := ⟨f1 - 1, by omega⟩
        unfold buffered_send_go
        simp only [w2, Bool.false_eq_true, false_or, hnil, if_false, reduceIte]
        obtain ⟨p1, p2, p3, p4, p5, p6, p7⟩ :=
          copy_to_buffer_fields (flush_buffer c) data
        rcases hct2 : copy_to_buffer (flush_buffer c) data with ⟨n2, c2⟩
        rw [hct2] at p1 p2 p3 p4 p5 p6 p7
        simp only at p1 p2 p3 p4 p5 p6 p7
        have hn2 : ¬ (n2 = 0) := by
          rw [p6, w6]
          simp only [Nat.sub_zero]
          have : 0 < BUF_SIZE := by decide
          omega
        simp only [hn2, reduceIte]
        have hc2f : c2.failed = false := by rw [p2, w2]
        have hdrop : (data.drop n2).length = data.length - n2 := by simp
        have hn2pos : 1 ≤ n2 := by omega
        obtain ⟨e3, f3, s3, l3⟩ := ih f2 (by omega) c2 (data.drop n2)
          hc2f (by omega)
        refine ⟨?_, f3, s3.trans (p3.trans w3), l3.trans (p4.trans w4)⟩
        rw [e3, p1, w1, p5, w5]
        have hn2le : n2 ≤ data.length := by omega
        simp [List.append_assoc]
      · simp only [hn0, reduceIte]
        have hc1f : c1.failed = false := by rw [q2, hf]
        have hdrop : (data.drop n).length = data.length - n := by simp
        have hnpos : 1 ≤ n := by omega
        obtain ⟨e3, f3, s3, l3⟩ := ih f1 (by omega) c1 (data.drop n)
          hc1f (by omega)
        refine ⟨?_, f3, s3.trans q3, l3.trans q4⟩
        rw [e3, q1, q5]
        simp [List.append_assoc]

/-- Invariant for send_str: the pending output (sent plus buffered) grows by
the string. -/
theorem send_str_spec (c : http_connection) (s : List Char)
    (hf : c.failed = false) :
    (send_str c s).sent ++ (send_str c s).bufData = c.sent ++ c.bufData ++ s ∧
    (send_str c s).failed = false ∧
    (send_str c s).stream = c.stream ∧
    (send_str c s).lastError = c.lastError :=
  buffered_send_go_spec (s.length * 2 + 2) c s hf (by omega)

/-- Invariant for the variadic part of send_line: the pending output grows
by the concatenation of the parts. -/
theorem foldl_send_str_spec :
    ∀ (parts : List (List Char)) (c : http_connection),
    c.failed = false →
    (parts.foldl send_str c).sent ++ (parts.foldl send_str c).bufData
      = c.sent ++ c.bufData ++ parts.flatten ∧
    (parts.foldl send_str c).failed = false ∧
    (parts.foldl send_str c).stream = c.stream ∧
    (parts.foldl send_str c).lastError = c.lastError := by
  intro parts
  induction parts with
  | nil => intro c hf; simp [hf]
  | cons p ps ih =>
    intro c hf
    obtain ⟨e1, f1, s1, l1⟩ := send_str_spec c p hf
    obtain ⟨e2, f2, s2, l2⟩ := ih (send_str c p) f1
    simp only [List.foldl_cons]
    refine ⟨?_, f2, s2.trans s1, l2.trans l1⟩
    rw [e2, e1]
    simp [List.flatten, List.append_assoc]

/-- Invariant for send_line: the pending output grows by the parts followed
by CRLF. -/
theorem send_line_spec (c : http_connection) (parts : List (List Char))
    (hf : c.failed = false) :
    (send_line c parts).sent ++ (send_line c parts).bufData
      = c.sent ++ c.bufData ++ parts.flatten ++ crlf ∧
    (send_line c parts).failed = false ∧
    (send_line c parts).stream = c.stream ∧
    (send_line c parts).lastError = c.lastError := by
  obtain ⟨e1, f1, s1, l1⟩ := foldl_send_str_spec parts c hf
  obtain ⟨e2, f2, s2, l2⟩ := send_str_spec (parts.foldl send_str c) crlf f1
  unfold send_line
  refine ⟨?_, f2, s2.trans s1, l2.trans l1⟩
  rw [show "\r\n".toList = crlf from rfl, e2, e1]

/-- Invariant for send_header. -/
theorem send_header_spec (c : http_connection) (field value : List Char)
    (hf : c.failed = false) :
    (send_header c field value).sent ++ (send_header c field value).bufData
      = c.sent ++ c.bufData ++ (field ++ ": ".toList ++ value ++ crlf) ∧
    (send_header c field value).failed = false ∧
    (send_header c field value).stream = c.stream ∧
    (send_header c field value).lastError = c.lastError := by
  obtain ⟨e1, f1, s1, l1⟩ := send_line_spec c [field, ": ".toList, value] hf
  unfold send_header
  refine ⟨?_, f1, s1, l1⟩
  rw [e1]
  simp [List.flatten, List.append_assoc]

/-- Invariant for send_host_header. -/
theorem send_host_header_spec (c : http_connection) (host : List Char)
    (port : Int) (hf : c.failed = false) :
    (send_host_header c host port).sent ++ (send_host_header c host port).bufData
      = c.sent ++ c.bufData ++ host_line_bytes host port ∧
    (send_host_header c host port).failed = false ∧
    (send_host_header c host port).stream = c.stream ∧
    (send_host_header c host port).lastError = c.lastError := by
  obtain ⟨e1, f1, s1, l1⟩ := send_line_spec c
    ["Host: ".toList, host,
     if 0 ≤ port then ([':'] ++ (Int.repr port).toList).take 15 else []] hf
  unfold send_host_header
  refine ⟨?_, f1, s1, l1⟩
  rw [e1]
  simp [host_line_bytes, host_suffix_bytes, List.append_assoc]

/-- Invariant for send_auth_header. -/
theorem send_auth_header_spec (c : http_connection) (cr : List Char)
    (hf : c.failed = false) :
    (send_auth_header c cr).sent ++ (send_auth_header c cr).bufData
      = c.sent ++ c.bufData ++ auth_line_bytes cr ∧
    (send_auth_header c cr).failed = false ∧
    (send_auth_header c cr).stream = c.stream ∧
    (send_auth_header c cr).lastError = c.lastError := by
  obtain ⟨e1, f1, s1, l1⟩ := send_header_spec c ("Authorization".toList)
    ("Basic ".toList ++ base64_encode cr) hf
  unfold send_auth_header
  refine ⟨?_, f1, s1, l1⟩
  rw [e1]
  simp [auth_line_bytes, List.append_assoc]

/-- Invariant for send_range_header. -/
theorem send_range_header_spec (c : http_connection) (first last : Nat)
    (hf : c.failed = false) :
    (send_range_header c first last).sent ++ (send_range_header c first last).bufData
      = c.sent ++ c.bufData ++ range_line_bytes first last ∧
    (send_range_header c first last).failed = false ∧
    (send_range_header c first last).stream = c.stream ∧
    (send_range_header c first last).lastError = c.lastError := by
  obtain ⟨e1, f1, s1, l1⟩ := send_header_spec c ("Range".toList)
    (if last ≠ SIZE_MAX then
       ("bytes=".toList ++ (Nat.repr first).toList ++ ['-'] ++
         (Nat.repr last).toList).take 31
     else ("bytes=".toList ++ (Nat.repr first).toList ++ ['-']).take 31) hf
  unfold send_range_header
  refine ⟨?_, f1, s1, l1⟩
  rw [e1]
  simp [range_line_bytes, range_value_bytes, List.append_assoc]

/-- Serialization of send_request: on a healthy connection the transmitted
bytes after the final flush are exactly the previous pending output followed
by request_bytes, the buffer is left empty, and send_request reports
success. -/
theorem send_request_spec (c : http_connection) (info : http_request_info)
    (hf : c.failed = false) :
    (send_request c info).2.sent = c.sent ++ c.bufData ++ request_bytes info ∧
    (send_request c info).2.bufData = [] ∧
    (send_request c info).1 = true ∧
    (send_request c info).2.failed = false ∧
    (send_request c info).2.stream = c.stream ∧
    (send_request c info).2.lastError = c.lastError := by
  unfold send_request
  simp only []
  obtain ⟨e1, f1, s1, l1⟩ := send_line_spec c
    [info.command, " ".toList, info.path, " HTTP/1.1".toList] hf
  set c1 := send_line c [info.command, " ".toList, info.path, " HTTP/1.1".toList]
    with hc1
  obtain ⟨e2, f2, s2, l2⟩ := send_host_header_spec c1 info.host info.port f1
  set c2 := send_host_header c1 info.host info.port with hc2
  rcases hcr : info.creds with _ | cr
  all_goals simp only [hcr]
  case none =>
    obtain ⟨e4, f4, s4, l4⟩ := send_header_spec c2 ("Connection".toList)
      ("close".toList) f2
    set c4 := send_header c2 ("Connection".toList) ("close".toList) with hc4
    by_cases hwr : info.want_range
    all_goals simp only [hwr, Bool.not_eq_true, Bool.false_eq_true, if_true,
      if_false, reduceIte]
    case pos =>
      obtain ⟨e5, f5, s5, l5⟩ := send_range_header_spec c4
        info.range_first info.range_last f4
      set c5 := send_range_header c4 info.range_first info.range_last with hc5
      obtain ⟨e6, f6, s6, l6⟩ := send_line_spec c5 [] f5
      set c6 := send_line c5 [] with hc6
      obtain ⟨w1, w2, w3, w4, w5, w6⟩ := flush_buffer_fields c6 f6
      refine ⟨?_, w5, by simp [w2], w2, w3.trans (s6.trans (s5.trans
        (s4.trans (s2.trans s1)))), w4.trans (l6.trans (l5.trans
        (l4.trans (l2.trans l1))))⟩
      rw [w1, e6, e5, e4, e2, e1]
      simp [request_bytes, request_line_bytes, conn_line_bytes, hcr, hwr,
        List.append_assoc]
    case neg =>
      obtain ⟨e6, f6, s6, l6⟩ := send_line_spec c4 [] f4
      set c6 := send_line c4 [] with hc6
      obtain ⟨w1, w2, w3, w4, w5, w6⟩ := flush_buffer_fields c6 f6
      refine ⟨?_, w5, by simp [w2], w2, w3.trans (s6.trans
        (s4.trans (s2.trans s1))), w4.trans (l6.trans
        (l4.trans (l2.trans l1)))⟩
      rw [w1, e6, e4, e2, e1]
      simp [request_bytes, request_line_bytes, conn_line_bytes, hcr, hwr,
        List.append_assoc]
  case some =>
    obtain ⟨e3, f3, s3, l3⟩ := send_auth_header_spec c2 cr f2
    set c3 := send_auth_header c2 cr with hc3
    obtain ⟨e4, f4, s4, l4⟩ := send_header_spec c3 ("Connection".toList)
      ("close".toList) f3
    set c4 := send_header c3 ("Connection".toList) ("close".toList) with hc4
    by_cases hwr : info.want_range
    all_goals simp only [hwr, Bool.not_eq_true, Bool.false_eq_true, if_true,
      if_false, reduceIte]
    case pos =>
      obtain ⟨e5, f5, s5, l5⟩ := send_range_header_spec c4
        info.range_first info.range_last f4
      set c5 := send_range_header c4 info.range_first info.range_last with hc5
      obtain ⟨e6, f6, s6, l6⟩ := send_line_spec c5 [] f5
      set c6 := send_line c5 [] with hc6
      obtain ⟨w1, w2, w3, w4, w5, w6⟩ := flush_buffer_fields c6 f6
      refine ⟨?_, w5, by simp [w2], w2, w3.trans (s6.trans (s5.trans
        (s4.trans (s3.trans (s2.trans s1))))), w4.trans (l6.trans (l5.trans
        (l4.trans (l3.trans (l2.trans l1)))))⟩
      rw [w1, e6, e5, e4, e3, e2, e1]
      simp [request_bytes, request_line_bytes, conn_line_bytes, hcr, hwr,
        List.append_assoc]
    case neg =>
      obtain ⟨e6, f6, s6, l6⟩ := send_line_spec c4 [] f4
      set c6 := send_line c4 [] with hc6
      obtain ⟨w1, w2, w3, w4, w5, w6⟩ := flush_buffer_fields c6 f6
      refine ⟨?_, w5, by simp [w2], w2, w3.trans (s6.trans
        (s4.trans (s3.trans (s2.trans s1)))), w4.trans (l6.trans
        (l4.trans (l3.trans (l2.trans l1))))⟩
      rw [w1, e6, e4, e3, e2, e1]
      simp [request_bytes, request_line_bytes, conn_line_bytes, hcr, hwr,
        List.append_assoc]

/-- Frame for do_recv: the send direction and the error slot are untouched. -/
theorem do_recv_frame (c : http_connection) (len : Nat) (ex : Bool) :
    conn_frame (do_recv c len ex).2.2 c := by
  unfold conn_frame do_recv
  by_cases hf : c.failed <;> simp [hf]

/-- Closed form of copy_from_buffer. -/
theorem copy_from_buffer_eq (c : http_connection) (len : Nat) :
    copy_from_buffer c len =
      (min c.bufData.length len, c.bufData.take len,
       { c with bufBegin := c.bufBegin + min c.bufData.length len,
                bufData := c.bufData.drop len }) := by
  rcases c with ⟨f, st, se, bb, be, bd, le⟩
  unfold copy_from_buffer
  simp only []
  by_cases hz : min bd.length len = 0
  · have h0 : bd.length = 0 ∨ len = 0 := by omega
    rcases h0 with h0 | h0
    · have hnil : bd = [] := List.eq_nil_of_length_eq_zero h0
      subst hnil
      simp [hz]
    · subst h0
      simp [hz]
  · simp only [hz, if_false, reduceIte]
    rcases le_or_lt len bd.length with hle | hlt
    · have hm : min bd.length len = len := by omega
      rw [hm]
    · have hm : min bd.length len = bd.length := by omega
      rw [hm]
      simp [List.take_of_length_le hlt.le, List.drop_eq_nil_of_le hlt.le,
        List.drop_eq_nil_of_le (le_refl bd.length)]

/-- Closed form of do_recv on a healthy connection. -/
theorem do_recv_eq (c : http_connection) (len : Nat) (ex : Bool)
    (hf : c.failed = false) :
    do_recv c len ex =
      (min len c.stream.length, c.stream.take len,
       { c with stream := c.stream.drop len }) := by
  simp [do_recv, hf, Nat.min_comm]

/-- Closed form of buffered_recv on a healthy connection under the
deterministic network model: min(len, available) bytes are delivered, the
buffer is drained first and the remainder comes off the stream. -/
theorem buffered_recv_eq (c : http_connection) (len : Nat)
    (hf : c.failed = false) :
    buffered_recv c len =
      (min len (c.bufData.length + c.stream.length),
       (c.bufData ++ c.stream).take len,
       { c with bufBegin := c.bufBegin + min c.bufData.length len,
                bufData := c.bufData.drop len,
                stream := c.stream.drop (len - c.bufData.length) }) := by
  rcases c with ⟨f, st, se, bb, be, bd, le⟩
  subst hf
  unfold buffered_recv
  rw [copy_from_buffer_eq]
  by_cases hb : bd.length ≠ 0
  · rcases le_or_lt len bd.length with hle | hlt
    · have hm : min bd.length len = len := by omega
      have hz : ¬ (0 < len - len) := by omega
      have e1 : min len (bd.length + st.length) = len := by omega
      have e2 : (bd ++ st).take len = bd.take len := by
        rw [List.take_append_eq_append_take]
        have h9 : len - bd.length = 0 := by omega
        simp [h9]
      have e3 : st.drop (len - bd.length) = st := by
        have h9 : len - bd.length = 0 := by omega
        simp [h9]
      simp [hb, hm, hz, e1, e2, e3]
    · have hm : min bd.length len = bd.length := by omega
      have hz : 0 < len - bd.length := by omega
      have e1 : bd.length + min (len - bd.length) st.length =
          min len (bd.length + st.length) := by omega
      have e2 : bd.take len ++ st.take (len - bd.length) = (bd ++ st).take len := by
        rw [List.take_append_eq_append_take,
          List.take_of_length_le (by omega : bd.length ≤ len)]
      have e3 : bd.drop len = [] := List.drop_eq_nil_of_le (by omega)
      simp [hb, hm, hz, do_recv_eq, e1, e2, e3]
  · have hnil : bd = [] := by
      simp at hb
      exact hb
    subst hnil
    by_cases hl : 0 < len
    · simp [hl, do_recv_eq]
    · have h0 : len = 0 := by omega
      subst h0
      simp

/-- Frame for buffered_recv: the send direction and the error slot are
untouched, the failed flag is unchanged, and a failed connection's stream is
untouched. -/
theorem buffered_recv_frame (c : http_connection) (len : Nat) :
    conn_frame (buffered_recv c len).2.2 c := by
  by_cases hf : c.failed
  · obtain ⟨h1, h2, h3, h4, h5, h6⟩ := buffered_recv_failed c len hf
    exact ⟨h3, h5, h6.trans hf.symm, fun _ => h4⟩
  · rw [buffered_recv_eq c len (Bool.eq_false_iff.mpr hf)]
    refine ⟨rfl, rfl, rfl, fun hc => absurd hc hf⟩

/-- The wrapper recv_line inherits the loop's frame properties. -/
theorem recv_line_frame (c : http_connection) (bs : Nat) :
    conn_frame (recv_line c bs).2.2 c := by
  have h := recv_line_go_frame (c.stream.length + c.bufData.length + 1) c bs 0 []
  unfold recv_line
  rcases hgo : recv_line_go (c.stream.length + c.bufData.length + 1) c bs 0 []
    with ⟨ll, w, c1⟩
  rw [hgo] at h
  exact h

/-- load_chunk never touches the send direction. -/
theorem load_chunk_sent (resp : http_response) :
    ((load_chunk resp).2).conn.sent = resp.conn.sent := by
  have h := recv_line_frame resp.conn 16
  unfold load_chunk
  rcases hrl : recv_line resp.conn 16 with ⟨n, w, c1⟩
  rw [hrl] at h
  simp only [] at h ⊢
  by_cases h16 : 16 ≤ n
  · simp only [h16, if_true, reduceIte]
    by_cases hcf : c1.failed <;> simp [hcf, h.1]
  · simp only [h16, if_false, reduceIte]
    cases hps : parse_size (w.take n) 16 with
    | some sz => simp [h.1]
    | none =>
      by_cases hcf : c1.failed <;> simp [hcf, h.1]

set_option maxHeartbeats 1000000 in
/-- chunked_read never touches the send direction. -/
theorem chunked_read_sent (resp : http_response) (len : Nat) :
    ((chunked_read resp len).2.2).conn.sent = resp.conn.sent := by
  unfold chunked_read
  by_cases h0 : resp.chunk_size = 0
  · rw [if_pos h0]
  · rw [if_neg h0]
    conv_lhs => zeta
    have hb1 := buffered_recv_frame resp.conn (min len resp.chunk_size)
    rcases hbr : buffered_recv resp.conn (min len resp.chunk_size)
      with ⟨n, bytes, c1⟩
    rw [hbr] at hb1
    simp only [] at hb1
    have hs1 : c1.sent = resp.conn.sent := hb1.1
    simp only []
    by_cases hshort : n < min len resp.chunk_size
    · rw [if_pos hshort]
      split <;> exact hs1
    · rw [if_neg hshort]
      split
      · have hb2 := buffered_recv_frame c1 2
        rcases hbr2 : buffered_recv c1 2 with ⟨m, crlfb, c2⟩
        rw [hbr2] at hb2
        simp only [] at hb2
        have hs2 : c2.sent = c1.sent := hb2.1
        simp only []
        split
        · split <;> exact hs2.trans hs1
        · split <;> exact (load_chunk_sent _).trans (hs2.trans hs1)
      · exact hs1

/-- simple_read never touches the send direction. -/
theorem simple_read_sent (resp : http_response) (len : Nat) :
    ((simple_read resp len).2.2).conn.sent = resp.conn.sent := by
  unfold simple_read
  simp only []
  have hb1 := buffered_recv_frame resp.conn
    (if 0 < resp.body_size then min len (resp.body_size - resp.body_read)
     else len)
  rcases hbr : buffered_recv resp.conn
      (if 0 < resp.body_size then min len (resp.body_size - resp.body_read)
       else len) with ⟨n, bytes, c1⟩
  rw [hbr] at hb1
  simp only [] at hb1
  have hs1 : c1.sent = resp.conn.sent := hb1.1
  split
  · exact hs1
  · split
    · exact hs1
    · split <;> exact hs1

/-- Claim C8 as amended: after send_request completes (request line,
headers, blank line, final flush), the client performs no further sends on
the connection: every subsequent http_response_read leaves the transmitted
bytes unchanged.  (The write half is not actually shut down — see the
counterexample — the code simply never writes again.) -/
theorem c8_no_further_transmission (resp : http_response) (len : Nat) :
    ((http_response_read resp len).2.2).conn.sent = resp.conn.sent := by
  unfold http_response_read
  by_cases hc : resp.chunked
  · rw [if_pos hc]
    exact chunked_read_sent resp len
  · rw [if_neg hc]
    exact simple_read_sent resp len

/-- Counterexample to claim C8 as stated: after send_request completes, the
write half of the connection is not closed — a subsequent do_send still
transmits further bytes on that connection. -/
theorem c8_write_half_cex :
    (do_send (send_request (fresh_conn []) c8_info).2 ['x']).sent
      = (send_request (fresh_conn []) c8_info).2.sent ++ ['x'] ∧
    (send_request (fresh_conn []) c8_info).2.sent ≠
      (do_send (send_request (fresh_conn []) c8_info).2 ['x']).sent := by
  refine ⟨by decide, by decide⟩

/-- Claim C2: when a request carrying credentials is redirected without
forwarding permission, the follow-up request built by the redirect loop and
serialized by send_request contains no Authorization header if the
Location's host differs from the current host, and contains the same
Authorization header as the first attempt if the hosts match
case-insensitively. -/
theorem c2_credential_scoping (i : http_request_info) (url : url_struct)
    (c : http_connection) (cr h : List Char)
    (hcr : i.creds = some cr) (htr : i.trusted_location = false)
    (hhost : url.host = some h) (hc : c.failed = false) :
    (strcaseEq h i.host = false →
      (redirect_target_info i url).creds = none ∧
      (send_request c (redirect_target_info i url)).2.sent =
        c.sent ++ c.bufData ++
        (request_line_bytes (redirect_target_info i url) ++
         host_line_bytes h url.port ++
         conn_line_bytes ++
         (if i.want_range then range_line_bytes i.range_first i.range_last
          else []) ++
         crlf)) ∧
    (strcaseEq h i.host = true →
      (redirect_target_info i url).creds = some cr ∧
      (∃ pre post, (send_request c i).2.sent =
        pre ++ auth_line_bytes cr ++ post) ∧
      (∃ pre post, (send_request c (redirect_target_info i url)).2.sent =
        pre ++ auth_line_bytes cr ++ post)) := by
  have hstep : ∀ b : Bool, strcaseEq h i.host = b →
      redirect_target_info i url =
        { i with creds := if b then some cr else none,
                 host := h, port := url.port, path := url.path } := by
    intro b hb
    unfold redirect_target_info
    rw [hhost]
    simp only [hcr, htr, Option.isSome_some, Bool.not_false, Bool.and_self,
      Bool.true_and, hb]
    cases b <;> simp [hcr, htr]
  constructor
  · intro hne
    have he := hstep false hne
    have hcreds : (redirect_target_info i url).creds = none := by
      rw [he]
      simp
    obtain ⟨e1, _, _, _, _, _⟩ :=
      send_request_spec c (redirect_target_info i url) hc
    refine ⟨hcreds, ?_⟩
    rw [e1]
    unfold request_bytes
    rw [hcreds]
    have hh : (redirect_target_info i url).host = h := by rw [he]
    have hp : (redirect_target_info i url).port = url.port := by rw [he]
    have hw : (redirect_target_info i url).want_range = i.want_range := by
      rw [he]
    have hrf : (redirect_target_info i url).range_first = i.range_first := by
      rw [he]
    have hrl : (redirect_target_info i url).range_last = i.range_last := by
      rw [he]
    rw [hh, hp, hw, hrf, hrl]
    simp [List.append_assoc]
  · intro heq
    have he := hstep true heq
    have hcreds : (redirect_target_info i url).creds = some cr := by
      rw [he]
      simp
    obtain ⟨e1, _, _, _, _, _⟩ := send_request_spec c i hc
    obtain ⟨e2, _, _, _, _, _⟩ :=
      send_request_spec c (redirect_target_info i url) hc
    refine ⟨hcreds, ?_, ?_⟩
    · refine ⟨c.sent ++ c.bufData ++ request_line_bytes i ++
        host_line_bytes i.host i.port,
        conn_line_bytes ++
          (if i.want_range then range_line_bytes i.range_first i.range_last
           else []) ++ crlf, ?_⟩
      rw [e1]
      unfold request_bytes
      rw [hcr]
      simp [List.append_assoc]
    · refine ⟨c.sent ++ c.bufData ++
        request_line_bytes (redirect_target_info i url) ++
        host_line_bytes (redirect_target_info i url).host
          (redirect_target_info i url).port,
        conn_line_bytes ++
          (if (redirect_target_info i url).want_range then
            range_line_bytes (redirect_target_info i url).range_first
              (redirect_target_info i url).range_last
           else []) ++ crlf, ?_⟩
      rw [e2]
      unfold request_bytes
      rw [hcreds]
      simp [List.append_assoc]

/-- Witness for claim C2: a redirect from hosta to hostb strips the
credentials and serializes the follow-up without an Authorization header; a
redirect from hosta to HOSTA keeps them and both attempts carry the same
Authorization header. -/
theorem c2_credential_scoping_witness :
    (c2w_req.creds = some ("user:pw".toList) ∧
     c2w_req.trusted_location = false ∧
     c2w_urlB.host = some ("hostb".toList) ∧
     c2w_urlA.host = some ("HOSTA".toList) ∧
     (fresh_conn []).failed = false ∧
     strcaseEq ("hostb".toList) c2w_req.host = false ∧
     strcaseEq ("HOSTA".toList) c2w_req.host = true) ∧
    ((redirect_target_info c2w_req c2w_urlB).creds = none ∧
     (send_request (fresh_conn []) (redirect_target_info c2w_req c2w_urlB)).2.sent =
       (fresh_conn []).sent ++ (fresh_conn []).bufData ++
       (request_line_bytes (redirect_target_info c2w_req c2w_urlB) ++
        host_line_bytes ("hostb".toList) c2w_urlB.port ++
        conn_line_bytes ++
        (if c2w_req.want_range then
          range_line_bytes c2w_req.range_first c2w_req.range_last
         else []) ++
        crlf)) ∧
    ((redirect_target_info c2w_req c2w_urlA).creds = some ("user:pw".toList) ∧
     (∃ pre post, (send_request (fresh_conn []) c2w_req).2.sent =
       pre ++ auth_line_bytes ("user:pw".toList) ++ post) ∧
     (∃ pre post,
       (send_request (fresh_conn []) (redirect_target_info c2w_req c2w_urlA)).2.sent =
         pre ++ auth_line_bytes ("user:pw".toList) ++ post)) :=
  ⟨⟨by decide, by decide, by decide, by decide, by decide, by decide,
    by decide⟩,
   (c2_credential_scoping c2w_req c2w_urlB (fresh_conn [])
     ("user:pw".toList) ("hostb".toList) (by decide) (by decide) (by decide)
     (by decide)).1 (by decide),
   (c2_credential_scoping c2w_req c2w_urlA (fresh_conn [])
     ("user:pw".toList) ("HOSTA".toList) (by decide) (by decide) (by decide)
     (by decide)).2 (by decide)⟩

theorem redirect_target_info_max (i : http_request_info) (u : url_struct) :
    (redirect_target_info i u).max_redirections = i.max_redirections := by
  rcases u with ⟨sch, hst, prt, pth, nm⟩
  unfold redirect_target_info
  rcases hst with _ | h <;> simp only [] <;> split <;> rfl

theorem loop_follow_step
    (oracle : Nat → http_request_info → Bool × http_response)
    (fuel k : Nat) (i : http_request_info) (nf : Bool)
    (hret : (oracle k i).1 = true)
    (hstat : (oracle k i).2.status = 302)
    (u : url_struct) (hloc : (oracle k i).2.location = some u)
    (hsch : u.scheme = none ∨ u.scheme = some ("http".toList))
    (h : List Char) (hh : u.host = some h)
    (hnothit : redirect_budget_hit i.max_redirections = false) :
    http_simple_request_go oracle (fuel + 1) i k nf =
      http_simple_request_go oracle fuel
        (redirect_target_info
          { i with max_redirections := redirect_budget_next i.max_redirections }
          u)
        (k + 1) nf := by
  conv_lhs => unfold http_simple_request_go
  rcases ho : oracle k i with ⟨ret, resp⟩
  rw [ho] at hret hstat hloc
  simp only [] at hret hstat hloc
  simp only []
  rw [if_neg (by simp [hret])]
  rw [if_neg (by simp [hnothit])]
  have hred : HTTP_STATUS_REDIRECT resp.status = true := by
    rw [hstat]; decide
  rw [if_neg (by simp [hred])]
  rw [hloc]
  simp only []
  have hsb : (match u.scheme with
      | some sch => sch != ['h', 't', 't', 'p']
      | none => false) = false := by
    rcases hsch with hs | hs <;> rw [hs] <;> decide
  rw [if_neg (by simp [hsb])]
  have hnull : redirect_null_host_read
      { i with max_redirections := redirect_budget_next i.max_redirections }
      u = false := by
    unfold redirect_null_host_read
    rw [hh]
    simp
  rw [hnull, Bool.or_false]

theorem loop_stop_budget
    (oracle : Nat → http_request_info → Bool × http_response)
    (fuel k : Nat) (i : http_request_info) (nf : Bool)
    (hret : (oracle k i).1 = true)
    (hhit : redirect_budget_hit i.max_redirections = true) :
    http_simple_request_go oracle (fuel + 1) i k nf =
      some { ret := true, resp := (oracle k i).2, attempts := k + 1,
             nullHostRead := nf } := by
  conv_lhs => unfold http_simple_request_go
  rcases ho : oracle k i with ⟨ret, resp⟩
  rw [ho] at hret
  simp only [] at hret
  simp only []
  rw [if_neg (by simp [hret])]
  rw [if_pos (by simp [hhit])]

/-- C1: with a redirect budget of 2 and a server that answers every attempt
with a 302 carrying a parseable http Location with a host, http_simple_request
performs exactly 3 attempts (follows exactly 2 redirects) and returns true
with the third attempt's 302 response as-is (the same response record, so its
body is exactly as readable as the server sent it); and a negative budget
never stops the loop on the budget check (and is never decremented). -/
theorem c1_redirect_budget
    (oracle : Nat → http_request_info → Bool × http_response)
    (i : http_request_info)
    (hbudget : i.max_redirections = 2)
    (hsrv : ∀ k j, (oracle k j).1 = true ∧ (oracle k j).2.status = 302 ∧
      ∃ u, (oracle k j).2.location = some u ∧
        (u.scheme = none ∨ u.scheme = some ("http".toList)) ∧
        ∃ h, u.host = some h) :
    (∃ j2, http_simple_request oracle 4 i =
        some { ret := true, resp := (oracle 2 j2).2, attempts := 3,
               nullHostRead := false }) ∧
    (∀ m : Int, m < 0 →
      redirect_budget_hit m = false ∧ redirect_budget_next m = m) := by
  constructor
  · obtain ⟨hr0, hs0, u0, hl0, hsc0, h0, hh0⟩ := hsrv 0 i
    have e0 := loop_follow_step oracle 3 0 i false hr0 hs0 u0 hl0 hsc0 h0 hh0
      (by rw [hbudget]; decide)
    set i1 := redirect_target_info
      { i with max_redirections := redirect_budget_next i.max_redirections } u0
      with hi1
    have hm1 : i1.max_redirections = 1 := by
      rw [hi1, redirect_target_info_max]
      show redirect_budget_next i.max_redirections = 1
      rw [hbudget]
      decide
    obtain ⟨hr1, hs1, u1, hl1, hsc1, h1, hh1⟩ := hsrv 1 i1
    have e1 := loop_follow_step oracle 2 1 i1 false hr1 hs1 u1 hl1 hsc1 h1 hh1
      (by rw [hm1]; decide)
    set i2 := redirect_target_info
      { i1 with max_redirections := redirect_budget_next i1.max_redirections } u1
      with hi2
    have hm2 : i2.max_redirections = 0 := by
      rw [hi2, redirect_target_info_max]
      show redirect_budget_next i1.max_redirections = 0
      rw [hm1]
      decide
    obtain ⟨hr2, -, -⟩ := hsrv 2 i2
    have e2 := loop_stop_budget oracle 1 2 i2 false hr2 (by rw [hm2]; decide)
    refine ⟨i2, ?_⟩
    show http_simple_request_go oracle 4 i 0 false = _
    calc http_simple_request_go oracle 4 i 0 false
        = http_simple_request_go oracle 3 i1 1 false := e0
      _ = http_simple_request_go oracle 2 i2 2 false := e1
      _ = some { ret := true, resp := (oracle 2 i2).2, attempts := 3,
                 nullHostRead := false } := e2
  · intro m hm
    refine ⟨?_, ?_⟩
    · unfold redirect_budget_hit
      rw [decide_eq_false (by omega : ¬ (0 ≤ m))]
      simp
    · unfold redirect_budget_next
      rw [if_neg (by omega)]

/-- Witness for C1 at a concrete request and server. -/
theorem c1_redirect_budget_witness :
    c1w_i.max_redirections = 2 ∧
    ((∃ j2, http_simple_request c1w_oracle 4 c1w_i =
        some { ret := true, resp := (c1w_oracle 2 j2).2, attempts := 3,
               nullHostRead := false }) ∧
     (∀ m : Int, m < 0 →
       redirect_budget_hit m = false ∧ redirect_budget_next m = m)) :=
  ⟨by decide,
   c1_redirect_budget c1w_oracle c1w_i (by decide)
     (by
       intro k j
       exact ⟨rfl, rfl, c1w_u, rfl, Or.inl rfl, "h".toList, rfl⟩)⟩

theorem simple_read_step (resp : http_response) (len : Nat)
    (hf : resp.conn.failed = false)
    (hbs : 0 < resp.body_size)
    (hn : 0 < min (min len (resp.body_size - resp.body_read))
        (resp.conn.bufData.length + resp.conn.stream.length)) :
    simple_read resp len =
      (((min (min len (resp.body_size - resp.body_read))
          (resp.conn.bufData.length + resp.conn.stream.length) : Nat) : Int),
       (resp.conn.bufData ++ resp.conn.stream).take
         (min len (resp.body_size - resp.body_read)),
       { resp with
         conn := { resp.conn with
           bufBegin := resp.conn.bufBegin +
             min resp.conn.bufData.length
               (min len (resp.body_size - resp.body_read)),
           bufData := resp.conn.bufData.drop
             (min len (resp.body_size - resp.body_read)),
           stream := resp.conn.stream.drop
             (min len (resp.body_size - resp.body_read) -
              resp.conn.bufData.length) }
         body_read := resp.body_read +
           min (min len (resp.body_size - resp.body_read))
             (resp.conn.bufData.length + resp.conn.stream.length) }) := by
  unfold simple_read
  rw [if_pos hbs]
  conv_lhs => zeta
  rw [buffered_recv_eq _ _ hf]
  simp only []
  rw [if_pos hn]

theorem simple_read_done (resp : http_response) (len : Nat)
    (hf : resp.conn.failed = false)
    (hbs : 0 < resp.body_size)
    (hread : resp.body_size ≤ resp.body_read) :
    simple_read resp len = (0, [], resp) := by
  obtain ⟨⟨f, st, se, bb, be, bd, le⟩, v, s, r, rg, ch, bs, br, r1, r2, r3, cs, lo⟩ := resp
  simp only [] at hf hbs hread
  subst hf
  unfold simple_read
  simp only []
  rw [if_pos hbs]
  have hR : bs - br = 0 := by omega
  rw [hR]
  conv_lhs => zeta
  rw [buffered_recv_eq _ _ rfl]
  simp only [Nat.min_zero, Nat.zero_min, List.take_zero, List.drop_zero,
    Nat.add_zero, Nat.zero_sub]
  rw [if_neg (by omega : ¬ (0:Nat) < 0)]
  rw [if_neg (by simp : ¬ false = true)]
  rw [if_neg (by omega : ¬ br < bs)]

theorem simple_read_starve (resp : http_response) (len : Nat)
    (hf : resp.conn.failed = false)
    (hbs : 0 < resp.body_size)
    (hav : resp.conn.bufData.length + resp.conn.stream.length = 0)
    (hrem : resp.body_read < resp.body_size) :
    simple_read resp len = (-1, [], set_err resp .bodyShort) := by
  obtain ⟨⟨f, st, se, bb, be, bd, le⟩, v, s, r, rg, ch, bs, br, r1, r2, r3, cs, lo⟩ := resp
  simp only [] at hf hbs hav hrem
  subst hf
  have hbd : bd = [] := List.eq_nil_of_length_eq_zero (by omega)
  have hst : st = [] := List.eq_nil_of_length_eq_zero (by omega)
  subst hbd
  subst hst
  unfold simple_read
  simp only []
  rw [if_pos hbs]
  conv_lhs => zeta
  rw [buffered_recv_eq _ _ rfl]
  simp only [List.length_nil, Nat.min_zero, Nat.zero_min, List.take_nil,
    List.drop_nil, Nat.add_zero, List.nil_append]
  rw [if_neg (by omega : ¬ (0:Nat) < 0)]
  rw [if_neg (by simp : ¬ false = true)]
  rw [if_pos hrem]

theorem http_response_read_simple (resp : http_response) (len : Nat)
    (hch : resp.chunked = false) :
    http_response_read resp len = simple_read resp len := by
  unfold http_response_read
  rw [if_neg (by simp [hch])]

theorem simple_runReads_ok (N : Nat) (lens : List Nat) :
    ∀ (resp : http_response) (d : Nat),
    resp.chunked = false → resp.body_size = N → resp.body_read = d →
    resp.conn.failed = false → 0 < N → d ≤ N →
    N - d ≤ resp.conn.bufData.length + resp.conn.stream.length →
    (∀ l ∈ lens, 1 ≤ l) →
    ∃ rf, runReads resp lens = .ok (min (N - d) lens.sum) rf ∧
      rf.chunked = false ∧ rf.body_size = N ∧
      rf.body_read = d + min (N - d) lens.sum ∧ rf.conn.failed = false ∧
      N - rf.body_read ≤ rf.conn.bufData.length + rf.conn.stream.length := by
  induction lens with
  | nil =>
    intro resp d hch hN hd hf h0 hdN hav hlens
    refine ⟨resp, by simp [runReads], hch, hN, by simp [hd], hf, by omega⟩
  | cons l ls ih =>
    intro resp d hch hN hd hf h0 hdN hav hlens
    have hl : 1 ≤ l := hlens l (by simp)
    have hls : ∀ x ∈ ls, 1 ≤ x := fun x hx => hlens x (by simp [hx])
    obtain ⟨⟨f, st, se, bb, be, bd, le⟩, v, s, r, rg, ch, bs, br, r1, r2, r3, cs, lo⟩ := resp
    simp only [] at hch hN hd hf hav
    subst hch
    subst hN
    subst hd
    subst hf
    by_cases hdone : br = bs
    · have hrd : http_response_read
          ⟨⟨false, st, se, bb, be, bd, le⟩, v, s, r, rg, false, bs, br, r1, r2, r3, cs, lo⟩ l =
          (0, [], ⟨⟨false, st, se, bb, be, bd, le⟩, v, s, r, rg, false, bs, br, r1, r2, r3, cs, lo⟩) := by
        rw [http_response_read_simple _ _ rfl]
        exact simple_read_done _ l rfl (by simp only []; omega) (by simp only []; omega)
      obtain ⟨rf, hrun, h1, h2, h3, h4, h5⟩ :=
        ih ⟨⟨false, st, se, bb, be, bd, le⟩, v, s, r, rg, false, bs, br, r1, r2, r3, cs, lo⟩
          br rfl rfl rfl rfl h0 hdN hav hls
    
      refine ⟨rf, ?_, h1, h2, ?_, h4, h5⟩
      · unfold runReads
        rw [hrd]
        simp only []
        rw [if_neg (by omega : ¬ (0:Int) < 0)]
        rw [hrun]
        simp only [Int.toNat_zero]
        congr 1
        have hz : bs - br = 0 := by omega
        simp [hz]
      · rw [h3]
        have hz : bs - br = 0 := by omega
        simp [hz]
    · have hn0 : 0 < min (min l (bs - br)) (bd.length + st.length) := by
        omega
      have hrd := simple_read_step
        ⟨⟨false, st, se, bb, be, bd, le⟩, v, s, r, rg, false, bs, br, r1, r2, r3, cs, lo⟩
        l rfl (by simp only []; omega) hn0
      obtain ⟨rf, hrun, h1, h2, h3, h4, h5⟩ :=
        ih ⟨⟨false, st.drop (min l (bs - br) - bd.length), se,
              bb + min bd.length (min l (bs - br)), be,
              bd.drop (min l (bs - br)), le⟩,
            v, s, r, rg, false, bs,
            br + min (min l (bs - br)) (bd.length + st.length),
            r1, r2, r3, cs, lo⟩
          (br + min (min l (bs - br)) (bd.length + st.length))
          rfl rfl rfl rfl h0 (by omega)
          (by simp only []; simp only [List.length_drop]; omega) hls
      refine ⟨rf, ?_, h1, h2, ?_, h4, ?_⟩
      · unfold runReads
        rw [http_response_read_simple _ _ rfl, hrd]
        simp only []
        rw [if_neg (by omega : ¬ ((min (min l (bs - br)) (bd.length + st.length) : Nat) : Int) < 0)]
        rw [hrun]
        simp only [Int.toNat_natCast]
        congr 1
        simp only [List.sum_cons]
        omega
      · rw [h3]
        simp only [List.sum_cons]
        omega
      · exact h5

theorem simple_runReads_short (lens : List Nat) :
    ∀ (resp : http_response),
    resp.chunked = false → 0 < resp.body_size →
    resp.conn.failed = false →
    resp.conn.bufData.length + resp.conn.stream.length <
      resp.body_size - resp.body_read →
    resp.conn.bufData.length + resp.conn.stream.length < lens.length →
    (∀ l ∈ lens, 1 ≤ l) →
    ∃ rf, runReads resp lens = .err rf ∧
      rf.conn.lastError = some http_err.bodyShort := by
  induction lens with
  | nil =>
    intro resp _ _ _ _ hlen _
    simp at hlen
  | cons l ls ih =>
    intro resp hch hbs hf hav hlen hlens
    have hl : 1 ≤ l := hlens l (by simp)
    have hls : ∀ x ∈ ls, 1 ≤ x := fun x hx => hlens x (by simp [hx])
    obtain ⟨⟨f, st, se, bb, be, bd, le⟩, v, s, r, rg, ch, bs, br, r1, r2, r3, cs, lo⟩ := resp
    simp only [] at hch hbs hf hav hlen
    subst hch
    subst hf
    by_cases h0 : bd.length + st.length = 0
    · have hrd := simple_read_starve
        ⟨⟨false, st, se, bb, be, bd, le⟩, v, s, r, rg, false, bs, br, r1, r2, r3, cs, lo⟩
        l rfl hbs (by simp only []; omega) (by simp only []; omega)
      refine ⟨set_err ⟨⟨false, st, se, bb, be, bd, le⟩, v, s, r, rg, false,
          bs, br, r1, r2, r3, cs, lo⟩ .bodyShort, ?_, ?_⟩
      · unfold runReads
        rw [http_response_read_simple _ _ rfl, hrd]
        simp only []
        rw [if_pos (by omega : (-1:Int) < 0)]
      · simp [set_err]
    · have hn0 : 0 < min (min l (bs - br)) (bd.length + st.length) := by
        omega
      have hrd := simple_read_step
        ⟨⟨false, st, se, bb, be, bd, le⟩, v, s, r, rg, false, bs, br, r1, r2, r3, cs, lo⟩
        l rfl (by simp only []; omega) hn0
      obtain ⟨rf, hrun, herr⟩ :=
        ih ⟨⟨false, st.drop (min l (bs - br) - bd.length), se,
              bb + min bd.length (min l (bs - br)), be,
              bd.drop (min l (bs - br)), le⟩,
            v, s, r, rg, false, bs,
            br + min (min l (bs - br)) (bd.length + st.length),
            r1, r2, r3, cs, lo⟩
          rfl (by simp only []; omega) rfl
          (by simp only []; simp only [List.length_drop]; omega)
          (by simp only []; simp only [List.length_drop]; simp at hlen; omega) hls
      refine ⟨rf, ?_, herr⟩
      unfold runReads
      rw [http_response_read_simple _ _ rfl, hrd]
      simp only []
      rw [if_neg (by omega : ¬ ((min (min l (bs - br)) (bd.length + st.length) : Nat) : Int) < 0)]
      rw [hrun]

/-- C4: for a non-chunked response with declared Content-Length N > 0 and
no bytes delivered yet, when the connection carries at least N body bytes,
any sequence of reads with non-zero buffer lengths delivers exactly
min N (sum of the lengths) bytes in total - exactly N once the lengths sum
to at least N, each read being clamped to the undelivered remainder - and
the next read then returns 0; when fewer than N bytes are available and at
least one more read than available bytes is attempted, the run ends with a
read returning -1 and the bodyShort protocol error recorded. -/
theorem c4_content_length_reads
    (resp : http_response) (N : Nat) (lens : List Nat)
    (hch : resp.chunked = false) (hN : resp.body_size = N) (h0 : 0 < N)
    (hd : resp.body_read = 0) (hf : resp.conn.failed = false)
    (hlens : ∀ l ∈ lens, 1 ≤ l) :
    (N ≤ resp.conn.bufData.length + resp.conn.stream.length →
      ∃ rf, runReads resp lens = .ok (min N lens.sum) rf ∧
        (N ≤ lens.sum →
          runReads resp lens = .ok N rf ∧
          ∀ l, http_response_read rf l = (0, [], rf))) ∧
    (resp.conn.bufData.length + resp.conn.stream.length < N →
     resp.conn.bufData.length + resp.conn.stream.length < lens.length →
      ∃ rf, runReads resp lens = .err rf ∧
        rf.conn.lastError = some http_err.bodyShort) := by
  constructor
  · intro hav
    obtain ⟨rf, hrun, h1, h2, h3, h4, h5⟩ :=
      simple_runReads_ok N lens resp 0 hch hN hd hf h0 (by omega)
        (by omega) hlens
    have e0 : N - 0 = N := by omega
    rw [e0] at hrun h3
    refine ⟨rf, hrun, ?_⟩
    intro hsum
    have hmin : min N lens.sum = N := by omega
    rw [hmin] at hrun
    refine ⟨hrun, ?_⟩
    intro l
    rw [http_response_read_simple _ _ h1]
    exact simple_read_done rf l h4 (by omega) (by omega)
  · intro hav hlen
    exact simple_runReads_short lens resp hch (by omega) hf (by omega) hlen
      hlens

/-- Witness for C4 at two concrete responses and read sequences. -/
theorem c4_content_length_reads_witness :
    (c4w_ok.chunked = false ∧ c4w_ok.body_size = 3 ∧ (0:Nat) < 3 ∧
     c4w_ok.body_read = 0 ∧ c4w_ok.conn.failed = false ∧
     (∀ l ∈ [2, 2, 2], (1:Nat) ≤ l) ∧
     3 ≤ c4w_ok.conn.bufData.length + c4w_ok.conn.stream.length ∧
     c4w_short.chunked = false ∧ c4w_short.body_size = 5 ∧ (0:Nat) < 5 ∧
     c4w_short.body_read = 0 ∧ c4w_short.conn.failed = false ∧
     (∀ l ∈ [1, 1, 1], (1:Nat) ≤ l) ∧
     c4w_short.conn.bufData.length + c4w_short.conn.stream.length < 5 ∧
     c4w_short.conn.bufData.length + c4w_short.conn.stream.length <
       [1, 1, 1].length) ∧
    (∃ rf, runReads c4w_ok [2, 2, 2] = .ok (min 3 ([2, 2, 2].sum)) rf ∧
      (3 ≤ [2, 2, 2].sum →
        runReads c4w_ok [2, 2, 2] = .ok 3 rf ∧
        ∀ l, http_response_read rf l = (0, [], rf))) ∧
    (∃ rf, runReads c4w_short [1, 1, 1] = .err rf ∧
      rf.conn.lastError = some http_err.bodyShort) :=
  ⟨by decide,
   (c4_content_length_reads c4w_ok 3 [2, 2, 2] (by decide) (by decide)
     (by decide) (by decide) (by decide) (by decide)).1 (by decide),
   (c4_content_length_reads c4w_short 5 [1, 1, 1] (by decide) (by decide)
     (by decide) (by decide) (by decide) (by decide)).2 (by decide)
     (by decide)⟩

/-- One iteration of the recv_line loop when the buffer is non-empty and
holds a newline at index p: the bytes before the newline are copied out and
the newline itself is skipped. -/
theorem recv_line_go_found (fuel : Nat) (c : http_connection)
    (bufSize lineLen : Nat) (written : List Char) (p : Nat)
    (hll : lineLen < bufSize)
    (hfind : c.bufData.findIdx? (fun x => x == '\n') = some p)
    (hp0 : 0 < p) (hplt : p < c.bufData.length) :
    recv_line_go (fuel + 1) c bufSize lineLen written =
      (lineLen + p, written ++ c.bufData.take p,
       { c with bufBegin := c.bufBegin + p + 1,
                bufData := (c.bufData.drop p).drop 1 }) := by
  unfold recv_line_go
  rw [if_neg (by omega : ¬ bufSize ≤ lineLen)]
  rw [if_neg (by omega : ¬ c.bufData.length = 0)]
  simp only []
  rw [if_neg (by omega : ¬ (1 : Nat) = 0)]
  rw [hfind]
  simp only []
  rw [copy_from_buffer_eq]
  have hm : min c.bufData.length p = p := by omega
  rw [hm]

/-- One iteration of the recv_line loop when the buffer is empty: the whole
remaining stream is pulled into the buffer by refill_buffer, then the line
up to the newline at index p is copied out. -/
theorem recv_line_go_refill_found (fuel : Nat) (c : http_connection)
    (bufSize lineLen : Nat) (written : List Char) (p : Nat)
    (hll : lineLen < bufSize) (hf : c.failed = false)
    (hbd : c.bufData = []) (hsl : c.stream.length ≤ BUF_SIZE)
    (hfind : c.stream.findIdx? (fun x => x == '\n') = some p)
    (hp0 : 0 < p) (hplt : p < c.stream.length) :
    recv_line_go (fuel + 1) c bufSize lineLen written =
      (lineLen + p, written ++ c.stream.take p,
       { c with stream := [], bufBegin := p + 1, bufEnd := c.stream.length,
                bufData := (c.stream.drop p).drop 1 }) := by
  unfold recv_line_go
  rw [if_neg (by omega : ¬ bufSize ≤ lineLen)]
  rw [if_pos (by rw [hbd]; rfl : c.bufData.length = 0)]
  unfold refill_buffer
  rw [if_pos (by rw [hbd]; rfl : c.bufData.length = 0)]
  conv_lhs => zeta
  unfold do_recv
  rw [hf]
  simp only [Bool.false_eq_true, if_false, reduceIte]
  conv_lhs => zeta
  have ht : c.stream.take (BUF_SIZE - 0) = c.stream :=
    List.take_of_length_le (by omega)
  have hd : c.stream.drop (BUF_SIZE - 0) = [] :=
    List.drop_eq_nil_of_le (by omega)
  rw [ht, hd, hbd]
  simp only [List.nil_append, List.length_nil]
  rw [if_neg (by omega : ¬ c.stream.length = 0)]
  rw [hfind]
  simp only []
  rw [copy_from_buffer_eq]
  simp only []
  have hm : min c.stream.length p = p := by omega
  rw [hm]
  simp

/-- load_chunk on a connection whose buffer starts with a one-digit
chunk-size line: the line is consumed and the parsed size stored. -/
theorem load_chunk_line (resp : http_response) (dig : Char) (rest : List Char)
    (sz : Nat)
    (hbd : resp.conn.bufData = dig :: '\r' :: '\n' :: rest)
    (hdig : (dig == '\n') = false)
    (hsz : parse_size [dig] 16 = some sz) :
    load_chunk resp =
      (true, { resp with
               conn := { resp.conn with
                 bufBegin := resp.conn.bufBegin + 2 + 1,
                 bufData := rest },
               chunk_size := sz }) := by
  unfold load_chunk recv_line
  have hfind : resp.conn.bufData.findIdx? (fun x => x == '\n') = some 2 := by
    rw [hbd]
    simp [List.findIdx?_cons, hdig]
  rw [recv_line_go_found _ _ _ _ _ 2 (by omega) hfind (by omega)
    (by rw [hbd]; simp)]
  rw [hbd]
  simp only []
  have e1 : [] ++ List.take 2 (dig :: '\r' :: '\n' :: rest) = [dig, '\r'] := by
    simp
  rw [e1]
  have e2 : (if 0 < 0 + 2 ∧ ([dig, '\r'].getLastD ' ') = '\r' then 0 + 2 - 1
      else 0 + 2) = 1 := by
    simp [List.getLastD]
  rw [e2]
  rw [if_neg (by omega : ¬ (16:Nat) ≤ 1)]
  have e3 : List.take 1 [dig, '\r'] = [dig] := by simp
  rw [e3, hsz]
  simp only []
  have e4 : List.drop 1 (List.drop 2 (dig :: '\r' :: '\n' :: rest)) = rest := by
    simp
  rw [e4]

/-- load_chunk at end of input (empty buffer, empty stream): recv_line
returns an empty line, parse_size fails, and the chunk-size parse error is
recorded. -/
theorem load_chunk_empty (resp : http_response)
    (hf : resp.conn.failed = false)
    (hbd : resp.conn.bufData = [])
    (hstream : resp.conn.stream = []) :
    load_chunk resp =
      (false, { resp with
                conn := { resp.conn with
                  stream := [], bufBegin := 0, bufEnd := 0, bufData := [],
                  lastError := some .chunkSizeParse } }) := by
  obtain ⟨⟨f, st, se, bb, be, bd, le⟩, v, s, r, rg, ch, bs, br, r1, r2, r3,
    cs, lo⟩ := resp
  simp only [] at hf hbd hstream
  subst hf
  subst hbd
  subst hstream
  have hp : parse_size ([] : List Char) 16 = none := by decide
  simp [load_chunk, recv_line, recv_line_go, refill_buffer, do_recv,
    copy_from_buffer, hp]

/-- load_chunk on a connection whose buffer is empty while the stream
starts with a one-digit chunk-size line: refill_buffer pulls the stream in,
the line is consumed and the parsed size stored. -/
theorem load_chunk_refill (resp : http_response) (dig : Char)
    (rest : List Char) (sz : Nat)
    (hf : resp.conn.failed = false)
    (hbd : resp.conn.bufData = [])
    (hstream : resp.conn.stream = dig :: '\r' :: '\n' :: rest)
    (hsl : resp.conn.stream.length ≤ BUF_SIZE)
    (hdig : (dig == '\n') = false)
    (hsz : parse_size [dig] 16 = some sz) :
    load_chunk resp =
      (true, { resp with
               conn := { resp.conn with
                 stream := [],
                 bufBegin := 2 + 1,
                 bufEnd := resp.conn.stream.length,
                 bufData := rest },
               chunk_size := sz }) := by
  unfold load_chunk recv_line
  have hfind : resp.conn.stream.findIdx? (fun x => x == '\n') = some 2 := by
    rw [hstream]
    simp [List.findIdx?_cons, hdig]
  rw [recv_line_go_refill_found _ _ _ _ _ 2 (by omega) hf hbd hsl hfind
    (by omega) (by rw [hstream]; simp)]
  rw [hstream]
  simp only []
  have e1 : [] ++ List.take 2 (dig :: '\r' :: '\n' :: rest) = [dig, '\r'] := by
    simp
  rw [e1]
  have e2 : (if 0 < 0 + 2 ∧ ([dig, '\r'].getLastD ' ') = '\r' then 0 + 2 - 1
      else 0 + 2) = 1 := by
    simp [List.getLastD]
  rw [e2]
  rw [if_neg (by omega : ¬ (16:Nat) ≤ 1)]
  have e3 : List.take 1 [dig, '\r'] = [dig] := by simp
  rw [e3, hsz]
  simp only []
  have e4 : List.drop 1 (List.drop 2 (dig :: '\r' :: '\n' :: rest)) = rest := by
    simp
  rw [e4]

/-- The current chunk's remainder is present in the buffered tail. -/
theorem chunkRem_le_length (c1 c2 fin : List Char) (h1 : c1.length = 5)
    (h2 : c2.length = 3) (d : Nat) (hd : d < 8) :
    chunkRem d ≤ (chunkTail c1 c2 fin d).length := by
  unfold chunkRem chunkTail
  split_ifs <;>
    simp [List.length_append, List.length_drop, List.length_cons, h1, h2] <;>
    omega

/-- Consuming n bytes inside a chunk advances the buffered tail. -/
theorem chunkTail_drop_mid (c1 c2 fin : List Char) (h1 : c1.length = 5)
    (h2 : c2.length = 3) (d n : Nat) (hd : d < 8) (hn : n < chunkRem d) :
    (chunkTail c1 c2 fin d).drop n = chunkTail c1 c2 fin (d + n) := by
  unfold chunkRem at hn
  unfold chunkTail
  by_cases h5 : d < 5
  · rw [if_pos h5, if_pos (by split_ifs at hn <;> omega : d + n < 5)]
    rw [List.drop_append_eq_append_drop]
    have e0 : n - (c1.drop d).length = 0 := by
      simp only [List.length_drop]
      split_ifs at hn <;> omega
    rw [e0, List.drop_drop]
    simp
  · rw [if_neg h5, if_neg (by omega : ¬ d + n < 5)]
    rw [List.drop_append_eq_append_drop]
    have e0 : n - (c2.drop (d - 5)).length = 0 := by
      simp only [List.length_drop]
      split_ifs at hn <;> omega
    rw [e0, List.drop_drop]
    have e1 : d - 5 + n = d + n - 5 := by omega
    rw [e1]
    simp

/-- Consuming the rest of the first chunk exposes its CRLF and the "3"
size line. -/
theorem chunkTail_drop_rem1 (c1 c2 fin : List Char) (h1 : c1.length = 5)
    (h2 : c2.length = 3) (d : Nat) (hd : d < 5) :
    (chunkTail c1 c2 fin d).drop (5 - d) =
      '\r' :: '\n' :: '3' :: '\r' :: '\n' :: (c2 ++ ('\r' :: '\n' :: fin)) := by
  unfold chunkTail
  rw [if_pos hd]
  rw [List.drop_append_eq_append_drop]
  have e0 : List.drop (5 - d) (c1.drop d) = [] :=
    List.drop_eq_nil_of_le (by simp [List.length_drop]; omega)
  have e1 : 5 - d - (c1.drop d).length = 0 := by
    simp only [List.length_drop]
    omega
  rw [e0, e1]
  simp

/-- Consuming the rest of the second chunk exposes its CRLF and the
trailing bytes. -/
theorem chunkTail_drop_rem2 (c1 c2 fin : List Char) (h1 : c1.length = 5)
    (h2 : c2.length = 3) (d : Nat) (h5 : 5 ≤ d) (hd : d < 8) :
    (chunkTail c1 c2 fin d).drop (8 - d) = '\r' :: '\n' :: fin := by
  unfold chunkTail
  rw [if_neg (by omega : ¬ d < 5)]
  rw [List.drop_append_eq_append_drop]
  have e0 : List.drop (8 - d) (c2.drop (d - 5)) = [] :=
    List.drop_eq_nil_of_le (by simp [List.length_drop]; omega)
  have e1 : 8 - d - (c2.drop (d - 5)).length = 0 := by
    simp only [List.length_drop]
    omega
  rw [e0, e1]
  simp

/-- Within one chunk the remainder decreases by exactly the bytes read. -/
theorem chunkRem_sub (d m : Nat) (hd : d < 8) (hm : m < chunkRem d) :
    chunkRem d - m = chunkRem (d + m) := by
  unfold chunkRem at *
  split_ifs at * <;> omega

set_option maxHeartbeats 2000000 in
/-- One http_response_read of any non-final position of the chunked body:
min len (chunk remainder) bytes are delivered and the invariant advances;
at a chunk boundary the CRLF is verified and the next size line parsed. -/
theorem chunk_step_any (c1 c2 fin : List Char) (h1 : c1.length = 5)
    (h2 : c2.length = 3) (resp : http_response) (d len : Nat)
    (hlen : 1 ≤ len) (hd : d < 8)
    (hn8 : d + min len (chunkRem d) < 8 ∨ fin = chunkFin)
    (hst : ChunkSt c1 c2 fin d resp) :
    ∃ resp2, http_response_read resp len =
        (((min len (chunkRem d) : Nat) : Int),
         (chunkTail c1 c2 fin d).take (min len (chunkRem d)), resp2) ∧
      ChunkSt c1 c2 fin (d + min len (chunkRem d)) resp2 := by
  obtain ⟨hch, hf, hstm, hbr, hcs, hbd⟩ := hst
  rw [if_pos hd] at hbd
  obtain ⟨⟨f, st, se, bb, be, bd, le⟩, v, s, rr, rg, ch, bs, br, q1, q2, q3,
    cs, lo⟩ := resp
  simp only [] at hch hf hstm hbr hcs hbd
  subst hch
  subst hf
  subst hstm
  subst hcs
  subst hbd
  have hbr2 : d = br := hbr.symm
  subst hbr2
  have hub : chunkRem d ≤ 8 - d := by
    unfold chunkRem
    split_ifs <;> omega
  have hlb : 1 ≤ chunkRem d := by
    unfold chunkRem
    split_ifs <;> omega
  have hle : chunkRem d ≤ (chunkTail c1 c2 fin d).length :=
    chunkRem_le_length c1 c2 fin h1 h2 d hd
  have hmm : min (min len (chunkRem d)) ((chunkTail c1 c2 fin d).length) =
      min len (chunkRem d) := by omega
  by_cases hbnd : chunkRem d - min len (chunkRem d) = 0
  · have hbe : min len (chunkRem d) = chunkRem d := by omega
    by_cases h5 : d < 5
    · -- the read finishes the first chunk: next size line is "3"
      have hrem5 : chunkRem d = 5 - d := by
        unfold chunkRem
        rw [if_pos h5]
      have h5eq : d + min len (chunkRem d) = 5 := by omega
      have hdrop : (chunkTail c1 c2 fin d).drop (min len (chunkRem d)) =
          '\r' :: '\n' :: '3' :: '\r' :: '\n' ::
            (c2 ++ ('\r' :: '\n' :: fin)) := by
        rw [hbe, hrem5]
        exact chunkTail_drop_rem1 c1 c2 fin h1 h2 d h5
      exact ⟨_, by
        constructor
        · unfold http_response_read
          rw [if_pos rfl]
          unfold chunked_read
          rw [if_neg (show ¬ (chunkRem d = 0) by omega)]
          conv_lhs => zeta
          rw [buffered_recv_eq _ _ rfl]
          simp only [List.append_nil, List.length_nil, Nat.add_zero,
            List.drop_nil]
          rw [hmm]
          rw [if_neg (show ¬ (min len (chunkRem d) < min len (chunkRem d))
            by omega)]
          conv_lhs => zeta
          rw [if_pos hbnd]
          rw [hdrop]
          conv_lhs => zeta
          rw [buffered_recv_eq _ _ rfl]
          simp only [List.append_nil, List.length_nil, Nat.add_zero,
            List.length_cons, List.drop_nil]
          rw [show min 2 ((c2 ++ ('\r' :: '\n' :: fin)).length
              + 1 + 1 + 1 + 1 + 1) = 2 by omega]
          rw [if_neg (by simp)]
          conv_lhs => zeta
          rw [load_chunk_line _ '3' (c2 ++ ('\r' :: '\n' :: fin)) 3 rfl
            (by decide) (by decide)]
          simp only []
          rw [if_pos trivial]
        · rw [h5eq]
          refine ⟨rfl, rfl, by simp, by simp [h5eq], rfl, ?_⟩
          show c2 ++ ('\r' :: '\n' :: fin) = _
          rw [if_pos (by omega : (5:Nat) < 8)]
          unfold chunkTail
          rw [if_neg (by omega : ¬ ((5:Nat) < 5))]
          simp⟩
    · -- the read finishes the second chunk: next size line is "0"
      have hrem8 : chunkRem d = 8 - d := by
        unfold chunkRem
        rw [if_neg h5]
      have hfin : fin = chunkFin := by
        rcases hn8 with h8 | hfin
        · omega
        · exact hfin
      subst hfin
      have h8eq : d + min len (chunkRem d) = 8 := by omega
      have hdrop : (chunkTail c1 c2 chunkFin d).drop
          (min len (chunkRem d)) =
          '\r' :: '\n' :: '0' :: '\r' :: '\n' :: [] := by
        rw [hbe, hrem8]
        exact chunkTail_drop_rem2 c1 c2 chunkFin h1 h2 d (by omega) hd
      exact ⟨_, by
        constructor
        · unfold http_response_read
          rw [if_pos rfl]
          unfold chunked_read
          rw [if_neg (show ¬ (chunkRem d = 0) by omega)]
          conv_lhs => zeta
          rw [buffered_recv_eq _ _ rfl]
          simp only [List.append_nil, List.length_nil, Nat.add_zero,
            List.drop_nil]
          rw [hmm]
          rw [if_neg (show ¬ (min len (chunkRem d) < min len (chunkRem d))
            by omega)]
          conv_lhs => zeta
          rw [if_pos hbnd]
          rw [hdrop]
          conv_lhs => zeta
          rw [buffered_recv_eq _ _ rfl]
          simp only [List.append_nil, List.length_nil, Nat.add_zero,
            List.length_cons, List.drop_nil]
          rw [show min 2 (0 + 1 + 1 + 1 + 1 + 1) = 2 by omega]
          rw [if_neg (by simp)]
          conv_lhs => zeta
          rw [load_chunk_line _ '0' [] 0 rfl (by decide) (by decide)]
          simp only []
          rw [if_pos trivial]
        · rw [h8eq]
          refine ⟨rfl, rfl, by simp, by simp [h8eq], rfl, ?_⟩
          show ([] : List Char) = _
          rw [if_neg (by omega : ¬ ((8:Nat) < 8))]⟩
  · -- interior read: the chunk is not finished
    have h8 : d + min len (chunkRem d) < 8 := by omega
    exact ⟨_, by
      constructor
      · unfold http_response_read
        rw [if_pos rfl]
        unfold chunked_read
        rw [if_neg (show ¬ (chunkRem d = 0) by omega)]
        conv_lhs => zeta
        rw [buffered_recv_eq _ _ rfl]
        simp only [List.append_nil, List.length_nil, Nat.add_zero,
          List.drop_nil]
        rw [hmm]
        rw [if_neg (show ¬ (min len (chunkRem d) < min len (chunkRem d))
          by omega)]
        conv_lhs => zeta
        rw [if_neg hbnd]
      · refine ⟨rfl, rfl, by simp, rfl, ?_, ?_⟩
        · show chunkRem d - min len (chunkRem d) =
            chunkRem (d + min len (chunkRem d))
          exact chunkRem_sub d _ hd (by omega)
        · show (chunkTail c1 c2 fin d).drop (min len (chunkRem d)) = _
          rw [if_pos h8]
          exact chunkTail_drop_mid c1 c2 fin h1 h2 d _ hd (by omega)⟩

set_option maxHeartbeats 2000000 in
/-- One http_response_read that finishes the second chunk of a truncated
stream (no zero-size chunk follows): the bytes are still written to the
caller but the read returns -1 with the chunk-size parse error recorded. -/
theorem chunk_step_trunc (c1 c2 : List Char) (h1 : c1.length = 5)
    (h2 : c2.length = 3) (resp : http_response) (d len : Nat)
    (hlen : 1 ≤ len) (hd : d < 8)
    (h8 : d + min len (chunkRem d) = 8)
    (hst : ChunkSt c1 c2 [] d resp) :
    ∃ resp2, http_response_read resp len =
        (-1, (chunkTail c1 c2 [] d).take (min len (chunkRem d)), resp2) ∧
      resp2.conn.lastError = some http_err.chunkSizeParse := by
  obtain ⟨hch, hf, hstm, hbr, hcs, hbd⟩ := hst
  rw [if_pos hd] at hbd
  obtain ⟨⟨f, st, se, bb, be, bd, le⟩, v, s, rr, rg, ch, bs, br, q1, q2, q3,
    cs, lo⟩ := resp
  simp only [] at hch hf hstm hbr hcs hbd
  subst hch
  subst hf
  subst hstm
  subst hcs
  subst hbd
  have hbr2 : d = br := hbr.symm
  subst hbr2
  have hub : chunkRem d ≤ 8 - d := by
    unfold chunkRem
    split_ifs <;> omega
  have hlb : 1 ≤ chunkRem d := by
    unfold chunkRem
    split_ifs <;> omega
  have hle : chunkRem d ≤ (chunkTail c1 c2 [] d).length :=
    chunkRem_le_length c1 c2 [] h1 h2 d hd
  have hmm : min (min len (chunkRem d)) ((chunkTail c1 c2 [] d).length) =
      min len (chunkRem d) := by omega
  have h5 : ¬ d < 5 := by
    intro h5
    have : chunkRem d = 5 - d := by
      unfold chunkRem
      rw [if_pos h5]
    omega
  have hrem8 : chunkRem d = 8 - d := by
    unfold chunkRem
    rw [if_neg h5]
  have hbnd : chunkRem d - min len (chunkRem d) = 0 := by omega
  have hdrop : (chunkTail c1 c2 [] d).drop (min len (chunkRem d)) =
      '\r' :: '\n' :: [] := by
    rw [show min len (chunkRem d) = 8 - d by omega]
    exact chunkTail_drop_rem2 c1 c2 [] h1 h2 d (by omega) hd
  exact ⟨_, by
    constructor
    · unfold http_response_read
      rw [if_pos rfl]
      unfold chunked_read
      rw [if_neg (show ¬ (chunkRem d = 0) by omega)]
      conv_lhs => zeta
      rw [buffered_recv_eq _ _ rfl]
      simp only [List.append_nil, List.length_nil, Nat.add_zero,
        List.drop_nil]
      rw [hmm]
      rw [if_neg (show ¬ (min len (chunkRem d) < min len (chunkRem d))
        by omega)]
      conv_lhs => zeta
      rw [if_pos hbnd]
      rw [hdrop]
      conv_lhs => zeta
      rw [buffered_recv_eq _ _ rfl]
      simp only [List.append_nil, List.length_nil, Nat.add_zero,
        List.length_cons, List.drop_nil]
      rw [show min 2 (0 + 1 + 1) = 2 by omega]
      rw [if_neg (by simp)]
      conv_lhs => zeta
      rw [load_chunk_empty _ rfl rfl rfl]
      simp only []
      rw [if_neg (by simp)]
    · rfl⟩

/-- After the zero-size chunk was seen every further read returns 0 and
leaves the response untouched. -/
theorem chunk_read_done (c1 c2 fin : List Char) (resp : http_response)
    (len : Nat) (hst : ChunkSt c1 c2 fin 8 resp) :
    http_response_read resp len = (0, [], resp) := by
  obtain ⟨hch, hf, hstm, hbr, hcs, hbd⟩ := hst
  unfold http_response_read
  rw [if_pos hch]
  unfold chunked_read
  rw [if_pos (by rw [hcs]; rfl)]

/-- Any sequence of reads with non-zero lengths, long enough to finish,
delivers exactly the remaining 8 - d body bytes of a well-formed chunked
body. -/
theorem chunk_runReads_ok (c1 c2 : List Char) (h1 : c1.length = 5)
    (h2 : c2.length = 3) (lens : List Nat) :
    ∀ (resp : http_response) (d : Nat), d ≤ 8 →
    ChunkSt c1 c2 chunkFin d resp →
    (∀ l ∈ lens, 1 ≤ l) → 8 - d ≤ lens.length →
    ∃ rf, runReads resp lens = .ok (8 - d) rf ∧
      ChunkSt c1 c2 chunkFin 8 rf := by
  induction lens with
  | nil =>
    intro resp d hd8 hst hlens hlen
    simp only [List.length_nil] at hlen
    have hd : d = 8 := by omega
    subst hd
    exact ⟨resp, by simp [runReads], hst⟩
  | cons l ls ih =>
    intro resp d hd8 hst hlens hlen
    have hl : 1 ≤ l := hlens l (by simp)
    have hls : ∀ x ∈ ls, 1 ≤ x := fun x hx => hlens x (by simp [hx])
    simp only [List.length_cons] at hlen
    by_cases hd : d < 8
    · have hub : chunkRem d ≤ 8 - d := by
        unfold chunkRem
        split_ifs <;> omega
      have hlb : 1 ≤ chunkRem d := by
        unfold chunkRem
        split_ifs <;> omega
      obtain ⟨resp2, hread, hst2⟩ :=
        chunk_step_any c1 c2 chunkFin h1 h2 resp d l hl hd (Or.inr rfl) hst
      obtain ⟨rf, hrun, hstf⟩ := ih resp2 (d + min l (chunkRem d))
        (by omega) hst2 hls (by omega)
      refine ⟨rf, ?_, hstf⟩
      unfold runReads
      rw [hread]
      simp only []
      rw [if_neg (by omega : ¬ ((min l (chunkRem d) : Nat) : Int) < 0)]
      rw [hrun]
      simp only [Int.toNat_natCast]
      congr 1
      omega
    · have hd8' : d = 8 := by omega
      subst hd8'
      have hrd := chunk_read_done c1 c2 chunkFin resp l hst
      obtain ⟨rf, hrun, hstf⟩ := ih resp 8 (by omega) hst hls (by omega)
      refine ⟨rf, ?_, hstf⟩
      unfold runReads
      rw [hrd]
      simp only []
      rw [if_neg (by omega : ¬ (0:Int) < 0)]
      rw [hrun]
      simp

/-- On a truncated chunked stream any sufficiently long sequence of
non-zero reads ends with a read returning -1 and the chunk-size parse
error recorded. -/
theorem chunk_runReads_trunc (c1 c2 : List Char) (h1 : c1.length = 5)
    (h2 : c2.length = 3) (lens : List Nat) :
    ∀ (resp : http_response) (d : Nat), d < 8 →
    ChunkSt c1 c2 [] d resp →
    (∀ l ∈ lens, 1 ≤ l) → 8 - d ≤ lens.length →
    ∃ rf, runReads resp lens = .err rf ∧
      rf.conn.lastError = some http_err.chunkSizeParse := by
  induction lens with
  | nil =>
    intro resp d hd hst hlens hlen
    simp only [List.length_nil] at hlen
    omega
  | cons l ls ih =>
    intro resp d hd hst hlens hlen
    have hl : 1 ≤ l := hlens l (by simp)
    have hls : ∀ x ∈ ls, 1 ≤ x := fun x hx => hlens x (by simp [hx])
    simp only [List.length_cons] at hlen
    have hub : chunkRem d ≤ 8 - d := by
      unfold chunkRem
      split_ifs <;> omega
    have hlb : 1 ≤ chunkRem d := by
      unfold chunkRem
      split_ifs <;> omega
    by_cases h8 : d + min l (chunkRem d) = 8
    · obtain ⟨resp2, hread, herr⟩ :=
        chunk_step_trunc c1 c2 h1 h2 resp d l hl hd h8 hst
      refine ⟨resp2, ?_, herr⟩
      unfold runReads
      rw [hread]
      simp only []
      rw [if_pos (by omega : (-1:Int) < 0)]
    · obtain ⟨resp2, hread, hst2⟩ :=
        chunk_step_any c1 c2 [] h1 h2 resp d l hl hd (Or.inl (by omega)) hst
      obtain ⟨rf, hrun, herr⟩ := ih resp2 (d + min l (chunkRem d))
        (by omega) hst2 hls (by omega)
      refine ⟨rf, ?_, herr⟩
      unfold runReads
      rw [hread]
      simp only []
      rw [if_neg (by omega : ¬ ((min l (chunkRem d) : Nat) : Int) < 0)]
      rw [hrun]

/-- C3: for a response whose body is chunked with chunk sizes [5, 3, 0]
(chunk data c1 and c2 of lengths 5 and 3, well-formed framing), after
load_chunk preloads the first chunk, every sequence of http_response_read
calls with buffer lengths >= 1 (at least 8 of them) delivers exactly 8 body
bytes in total and every subsequent read returns 0; if the stream ends
without the terminating zero-size chunk, a read returns -1 with the
chunk-size parse error set instead. -/
theorem c3_chunked_reads (c1 c2 : List Char) (h1 : c1.length = 5)
    (h2 : c2.length = 3) (resp : http_response) (lens : List Nat)
    (hch : resp.chunked = true) (hf : resp.conn.failed = false)
    (hbd : resp.conn.bufData = []) (hbr : resp.body_read = 0)
    (hlens : ∀ l ∈ lens, 1 ≤ l) (hk : 8 ≤ lens.length) :
    (resp.conn.stream =
        '5' :: '\r' :: '\n' ::
          (c1 ++ ('\r' :: '\n' :: '3' :: '\r' :: '\n' ::
            (c2 ++ ('\r' :: '\n' :: chunkFin)))) →
      ∃ resp0 rf, load_chunk resp = (true, resp0) ∧
        runReads resp0 lens = .ok 8 rf ∧
        ∀ l, http_response_read rf l = (0, [], rf)) ∧
    (resp.conn.stream =
        '5' :: '\r' :: '\n' ::
          (c1 ++ ('\r' :: '\n' :: '3' :: '\r' :: '\n' ::
            (c2 ++ ('\r' :: '\n' :: ([] : List Char))))) →
      ∃ resp0 rf, load_chunk resp = (true, resp0) ∧
        runReads resp0 lens = .err rf ∧
        rf.conn.lastError = some http_err.chunkSizeParse) := by
  constructor
  · intro hstream
    have hsl : resp.conn.stream.length ≤ BUF_SIZE := by
      rw [hstream]
      simp only [List.length_cons, List.length_append, chunkFin, h1, h2,
        BUF_SIZE, List.length_nil]
      omega
    have htail : c1 ++ ('\r' :: '\n' :: '3' :: '\r' :: '\n' ::
        (c2 ++ ('\r' :: '\n' :: chunkFin))) = chunkTail c1 c2 chunkFin 0 := by
      unfold chunkTail
      rw [if_pos (by omega : (0:Nat) < 5)]
      simp
    have hload := load_chunk_refill resp '5'
      (c1 ++ ('\r' :: '\n' :: '3' :: '\r' :: '\n' ::
        (c2 ++ ('\r' :: '\n' :: chunkFin)))) 5 hf hbd hstream hsl
      (by decide) (by decide)
    have hst0 : ChunkSt c1 c2 chunkFin 0
        { resp with
          conn := { resp.conn with
            stream := [], bufBegin := 2 + 1,
            bufEnd := resp.conn.stream.length,
            bufData := c1 ++ ('\r' :: '\n' :: '3' :: '\r' :: '\n' ::
              (c2 ++ ('\r' :: '\n' :: chunkFin))) },
          chunk_size := 5 } := by
      refine ⟨hch, hf, rfl, hbr, rfl, ?_⟩
      rw [if_pos (by omega : (0:Nat) < 8)]
      exact htail
    obtain ⟨rf, hrun, hstf⟩ := chunk_runReads_ok c1 c2 h1 h2 lens _ 0
      (by omega) hst0 hlens (by omega)
    exact ⟨_, rf, hload, hrun, fun l => chunk_read_done c1 c2 chunkFin rf l hstf⟩
  · intro hstream
    have hsl : resp.conn.stream.length ≤ BUF_SIZE := by
      rw [hstream]
      simp only [List.length_cons, List.length_append, h1, h2,
        BUF_SIZE, List.length_nil]
      omega
    have htail : c1 ++ ('\r' :: '\n' :: '3' :: '\r' :: '\n' ::
        (c2 ++ ('\r' :: '\n' :: ([] : List Char)))) =
        chunkTail c1 c2 [] 0 := by
      unfold chunkTail
      rw [if_pos (by omega : (0:Nat) < 5)]
      simp
    have hload := load_chunk_refill resp '5'
      (c1 ++ ('\r' :: '\n' :: '3' :: '\r' :: '\n' ::
        (c2 ++ ('\r' :: '\n' :: ([] : List Char))))) 5 hf hbd hstream hsl
      (by decide) (by decide)
    have hst0 : ChunkSt c1 c2 [] 0
        { resp with
          conn := { resp.conn with
            stream := [], bufBegin := 2 + 1,
            bufEnd := resp.conn.stream.length,
            bufData := c1 ++ ('\r' :: '\n' :: '3' :: '\r' :: '\n' ::
              (c2 ++ ('\r' :: '\n' :: ([] : List Char)))) },
          chunk_size := 5 } := by
      refine ⟨hch, hf, rfl, hbr, rfl, ?_⟩
      rw [if_pos (by omega : (0:Nat) < 8)]
      exact htail
    obtain ⟨rf, hrun, herr⟩ := chunk_runReads_trunc c1 c2 h1 h2 lens _ 0
      (by omega) hst0 hlens (by omega)
    exact ⟨_, rf, hload, hrun, herr⟩

/-- Witness for C3 at two concrete wires and eight one-byte reads. -/
theorem c3_chunked_reads_witness :
    (("abcde".toList.length = 5) ∧ ("xyz".toList.length = 3) ∧
     c3w_good.chunked = true ∧ c3w_good.conn.failed = false ∧
     c3w_good.conn.bufData = [] ∧ c3w_good.body_read = 0 ∧
     (∀ l ∈ [1, 1, 1, 1, 1, 1, 1, 1], (1:Nat) ≤ l) ∧
     8 ≤ [1, 1, 1, 1, 1, 1, 1, 1].length ∧
     c3w_good.conn.stream =
       '5' :: '\r' :: '\n' ::
         ("abcde".toList ++ ('\r' :: '\n' :: '3' :: '\r' :: '\n' ::
           ("xyz".toList ++ ('\r' :: '\n' :: chunkFin)))) ∧
     c3w_trunc.conn.stream =
       '5' :: '\r' :: '\n' ::
         ("abcde".toList ++ ('\r' :: '\n' :: '3' :: '\r' :: '\n' ::
           ("xyz".toList ++ ('\r' :: '\n' :: ([] : List Char)))))) ∧
    (∃ resp0 rf, load_chunk c3w_good = (true, resp0) ∧
      runReads resp0 [1, 1, 1, 1, 1, 1, 1, 1] = .ok 8 rf ∧
      ∀ l, http_response_read rf l = (0, [], rf)) ∧
    (∃ resp0 rf, load_chunk c3w_trunc = (true, resp0) ∧
      runReads resp0 [1, 1, 1, 1, 1, 1, 1, 1] = .err rf ∧
      rf.conn.lastError = some http_err.chunkSizeParse) :=
  ⟨by decide,
   (c3_chunked_reads ("abcde".toList) ("xyz".toList) (by decide) (by decide)
     c3w_good [1, 1, 1, 1, 1, 1, 1, 1] (by decide) (by decide) (by decide)
     (by decide) (by decide) (by decide)).1 (by decide),
   (c3_chunked_reads ("abcde".toList) ("xyz".toList) (by decide) (by decide)
     c3w_trunc [1, 1, 1, 1, 1, 1, 1, 1] (by decide) (by decide) (by decide)
     (by decide) (by decide) (by decide)).2 (by decide)⟩
